import Mathlib

/-!
Verification of the klickhouse type grammar, validator, value checker and
scalar row mapper, as a shallow embedding of
src/klickhouse/src/types/mod.rs and src/klickhouse/src/convert/mod.rs.

Machine integers (usize, u8, u16) are modelled as Nat; signed payloads as
Int.  Timezones come from the external chrono-tz crate: a timezone value
is one of the IANA names, its Display prints the name and its FromStr
resolves exactly those names, so a timezone is modelled as the name it
carries.  Strings are modelled as lists of characters; the Rust char
classification predicates is_alphabetic / is_numeric / is_whitespace are
modelled by their ASCII restrictions, which agree with Rust on all inputs
the printer can produce.
-/

namespace Klickhouse

/-- Shorthand turning a string literal into the list of its characters. -/
def cs (s : String) : List Char := s.toList

/-- Modelled from the spec: a chrono-tz timezone (external crate), carried
by the name that its Display emits and its FromStr resolves. -/
structure Tz where
  name : List Char
deriving Repr, DecidableEq

instance : BEq Tz := ⟨fun a b => a.name == b.name⟩

/-- The UTC timezone constant chrono_tz::UTC. -/
def Tz.utc : Tz := ⟨cs "UTC"⟩

/-- A raw Clickhouse type, mirroring enum Type in types/mod.rs (the Rust
name Type is not available in Lean).  usize parameters are Nat; Enum8
entries carry (String, u8) and Enum16 entries (String, u16) as in the
source. -/
inductive Type' where
  | int8
  | int16
  | int32
  | int64
  | int128
  | int256
  | uint8
  | uint16
  | uint32
  | uint64
  | uint128
  | uint256
  | float32
  | float64
  | decimal32 (scale : Nat)
  | decimal64 (scale : Nat)
  | decimal128 (scale : Nat)
  | decimal256 (scale : Nat)
  | string
  | fixedString (n : Nat)
  | uuid
  | date
  | dateTime (tz : Tz)
  | dateTime64 (precision : Nat) (tz : Tz)
  | ipv4
  | ipv6
  | enum8 (entries : List (List Char × Nat))
  | enum16 (entries : List (List Char × Nat))
  | lowCardinality (inner : Type')
  | array (inner : Type')
  | tuple (inner : List Type')
  | nullable (inner : Type')
  | map (key : Type') (value : Type')
deriving Repr

/-- A runtime value, mirroring enum Value (declared in the values module;
its variants and payload shapes are fixed by their uses in types/mod.rs
and convert/mod.rs).  Numeric payloads are Nat (unsigned) or Int
(signed); Float32/Float64 carry their raw bit patterns; Uuid carries its
u128; Date its u16 day count; DateTime its (Tz, u32) pair; DateTime64 a
(Tz, usize precision, payload) triple; Ipv4/Ipv6 their raw integers. -/
inductive Value where
  | int8 (v : Int)
  | int16 (v : Int)
  | int32 (v : Int)
  | int64 (v : Int)
  | int128 (v : Int)
  | int256 (v : Int)
  | uint8 (v : Nat)
  | uint16 (v : Nat)
  | uint32 (v : Nat)
  | uint64 (v : Nat)
  | uint128 (v : Nat)
  | uint256 (v : Nat)
  | float32 (bits : Nat)
  | float64 (bits : Nat)
  | decimal32 (scale : Nat) (v : Int)
  | decimal64 (scale : Nat) (v : Int)
  | decimal128 (scale : Nat) (v : Int)
  | decimal256 (scale : Nat) (v : Int)
  | string (s : List Char)
  | uuid (v : Nat)
  | date (days : Nat)
  | dateTime (tz : Tz) (secs : Nat)
  | dateTime64 (tz : Tz) (precision : Nat) (ticks : Int)
  | ipv4 (v : Nat)
  | ipv6 (v : Nat)
  | enum8 (index : Nat)
  | enum16 (index : Nat)
  | array (values : List Value)
  | tuple (values : List Value)
  | null
  | map (keys : List Value) (values : List Value)
deriving Repr

/-- Type::strip_null from types/mod.rs. -/
def Type'.strip_null : Type' → Type'
  | .nullable x => x
  | t => t

/-- Type::is_nullable from types/mod.rs. -/
def Type'.is_nullable : Type' → Bool
  | .nullable _ => true
  | _ => false

mutual

/-- Type::default_value from types/mod.rs.  Defaults of the external
payload types (i256::default, u256::default, Uuid::from_u128(0),
Ipv4::default, Ipv6::default, Date(0), DateTime(tz, 0)) are all zero. -/
def Type'.default_value : Type' → Value
  | .int8 => .int8 0
  | .int16 => .int16 0
  | .int32 => .int32 0
  | .int64 => .int64 0
  | .int128 => .int128 0
  | .int256 => .int256 0
  | .uint8 => .uint8 0
  | .uint16 => .uint16 0
  | .uint32 => .uint32 0
  | .uint64 => .uint64 0
  | .uint128 => .uint128 0
  | .uint256 => .uint256 0
  | .float32 => .float32 0
  | .float64 => .float64 0
  | .decimal32 s => .decimal32 s 0
  | .decimal64 s => .decimal64 s 0
  | .decimal128 s => .decimal128 s 0
  | .decimal256 s => .decimal256 s 0
  | .string => .string []
  | .fixedString _ => .string []
  | .uuid => .uuid 0
  | .date => .date 0
  | .dateTime tz => .dateTime tz 0
  | .dateTime64 precision tz => .dateTime64 tz precision 0
  | .ipv4 => .ipv4 0
  | .ipv6 => .ipv6 0
  | .enum8 _ => .enum8 0
  | .enum16 _ => .enum16 0
  | .lowCardinality x => x.default_value
  | .array _ => .array []
  | .tuple types => .tuple (defaultValueList types)
  | .nullable _ => .null
  | .map _ _ => .map [] []

/-- Helper modelling types.iter().map(default_value).collect() in the
Tuple arm of Type::default_value. -/
def defaultValueList : List Type' → List Value
  | [] => []
  | t :: ts => t.default_value :: defaultValueList ts

end

/-- Errors produced by Type::validate; one constructor per anyhow! site,
carrying the data the message interpolates.  precisionOutOfBounds also
records the lower and upper bound that the message text claims. -/
inductive VError where
  | precisionOutOfBounds (which : String) (precision lo hi : Nat)
  | illegalLowCardinalityType
  | tooManyDimensions
  | nullableComposite
  | illegalMapKey
  | illegalMapValue
  | couldNotAssign
deriving Repr, DecidableEq

/-- The matches! test on the key type in the Map arm of Type::validate. -/
def isMapKeyLegal : Type' → Bool
  | .string | .fixedString _
  | .int8 | .int16 | .int32 | .int64 | .int128 | .int256
  | .uint8 | .uint16 | .uint32 | .uint64 | .uint128 | .uint256 => true
  | _ => false

/-- The matches! test on the value type in the Map arm of Type::validate. -/
def isMapValueLegal : Type' → Bool
  | .string | .fixedString _
  | .int8 | .int16 | .int32 | .int64 | .int128 | .int256
  | .uint8 | .uint16 | .uint32 | .uint64 | .uint128 | .uint256
  | .array _ => true
  | _ => false

mutual

/-- Type::validate from types/mod.rs.  The Decimal256 arm checks
precision > 9 although its own error message claims the range (1..=76);
the check is transcribed as written. -/
def Type'.validate : Type' → Nat → Except VError Unit
  | .decimal32 precision, _dims =>
    if precision == 0 || precision > 9 then
      .error (.precisionOutOfBounds "Decimal32" precision 1 9)
    else .ok ()
  | .dateTime64 precision _, _dims =>
    if precision == 0 || precision > 18 then
      .error (.precisionOutOfBounds "Decimal64/DateTime64" precision 1 18)
    else .ok ()
  | .decimal64 precision, _dims =>
    if precision == 0 || precision > 18 then
      .error (.precisionOutOfBounds "Decimal64/DateTime64" precision 1 18)
    else .ok ()
  | .decimal128 precision, _dims =>
    if precision == 0 || precision > 38 then
      .error (.precisionOutOfBounds "Decimal128" precision 1 38)
    else .ok ()
  | .decimal256 precision, _dims =>
    if precision == 0 || precision > 9 then
      .error (.precisionOutOfBounds "Decimal256" precision 1 76)
    else .ok ()
  | .lowCardinality inner, dims =>
    match inner.strip_null with
    | .string | .fixedString _ | .date | .dateTime _ | .ipv4 | .ipv6
    | .int8 | .int16 | .int32 | .int64 | .int128 | .int256
    | .uint8 | .uint16 | .uint32 | .uint64 | .uint128 | .uint256 =>
      inner.validate dims
    | _ => .error .illegalLowCardinalityType
  | .array inner, dims =>
    if dims ≥ 2 then .error .tooManyDimensions
    else inner.validate (dims + 1)
  | .tuple inner, dims => validateList inner dims
  | .nullable inner, dims =>
    match inner with
    | .array _ | .map _ _ | .lowCardinality _ | .tuple _ | .nullable _ =>
      .error .nullableComposite
    | _ => inner.validate dims
  | .map key value, dims =>
    if dims ≥ 2 then .error .tooManyDimensions
    else if !isMapKeyLegal key then .error .illegalMapKey
    else do
      key.validate (dims + 1)
      if !isMapValueLegal value then .error .illegalMapValue
      else value.validate (dims + 1)
  | _, _ => .ok ()

/-- Helper modelling the for loop over the members in the Tuple arm of
Type::validate (each member validated at the same dimension count, first
error propagated). -/
def validateList : List Type' → Nat → Except VError Unit
  | [], _ => .ok ()
  | t :: ts, dims => do
    t.validate dims
    validateList ts dims

end

mutual

/-- Type::inner_validate_value from types/mod.rs.  The arms appear in
source order; the comparison value == &Value::Null in the Nullable arm is
written as a match on the null constructor. -/
def Type'.inner_validate_value : Type' → Value → Bool
  | .int8, .int8 _ => true
  | .int16, .int16 _ => true
  | .int32, .int32 _ => true
  | .int64, .int64 _ => true
  | .int128, .int128 _ => true
  | .int256, .int256 _ => true
  | .uint8, .uint8 _ => true
  | .uint16, .uint16 _ => true
  | .uint32, .uint32 _ => true
  | .uint64, .uint64 _ => true
  | .uint128, .uint128 _ => true
  | .uint256, .uint256 _ => true
  | .float32, .float32 _ => true
  | .float64, .float64 _ => true
  | .decimal32 precision1, .decimal32 precision2 _ => precision1 == precision2
  | .decimal64 precision1, .decimal64 precision2 _ => precision1 == precision2
  | .decimal128 precision1, .decimal128 precision2 _ => precision1 == precision2
  | .decimal256 precision1, .decimal256 precision2 _ => precision1 == precision2
  | .string, .string _ => true
  | .fixedString _, .string _ => true
  | .uuid, .uuid _ => true
  | .date, .date _ => true
  | .dateTime tz1, .dateTime tz2 _ => tz1 == tz2
  | .dateTime64 precision1 tz1, .dateTime64 tz2 precision2 _ =>
    tz1 == tz2 && precision1 == precision2
  | .ipv4, .ipv4 _ => true
  | .ipv6, .ipv6 _ => true
  | .enum8 entries, .enum8 index => entries.any (fun x => x.2 == index)
  | .enum16 entries, .enum16 index => entries.any (fun x => x.2 == index)
  | .lowCardinality x, value => x.inner_validate_value value
  | .array inner_type, .array values => values.all inner_type.inner_validate_value
  | .tuple inner_types, .tuple values => innerValidateZip inner_types values
  | .nullable inner, value =>
    (match value with | .null => true | _ => false) || inner.inner_validate_value value
  | .map key value, .map keys values =>
    keys.all key.inner_validate_value && values.all value.inner_validate_value
  | _, _ => false

/-- Helper modelling inner_types.iter().zip(values.iter()).all(..) in the
Tuple arm of Type::inner_validate_value (zip stops at the shorter list). -/
def innerValidateZip : List Type' → List Value → Bool
  | t :: ts, v :: vs => t.inner_validate_value v && innerValidateZip ts vs
  | _, _ => true

end

/-- Type::validate_value from types/mod.rs. -/
def Type'.validate_value (self : Type') (value : Value) : Except VError Unit := do
  self.validate 0
  if !self.inner_validate_value value then .error .couldNotAssign
  else .ok ()

/-! The textual parser (impl FromStr for Type) and printer
(impl ToString for Type) from types/mod.rs, over lists of characters. -/

/-- Errors of FromStr for Type; one constructor per failure site.
panicTodo stands for the todo! panics in the Enum8, Enum16 and Nested
arms (a panic, not an Err, in the source).  outOfFuel is the recursion
bound of the embedding and is never reached when the fuel exceeds the
input length. -/
inductive PError where
  | emptyIdentifier
  | malformedArguments
  | mismatchedParens
  | badArgCount (which : String)
  | badDecimalSpec
  | badTimezone (which : String)
  | intParseError
  | invalidTypeWithArguments
  | invalidTypeName
  | panicTodo
  | outOfFuel
deriving Repr, DecidableEq

/-- The character class accepted by eat_identifier in types/mod.rs at
position i: alphabetic, underscore, dollar, or (when i > 0) numeric. -/
def identCharOk (first : Bool) (c : Char) : Bool :=
  c.isAlpha || c == '_' || c == '$' || (!first && c.isDigit)

/-- The scanning loop of eat_identifier: first marks whether we are at
index 0. -/
def eatIdentifierAux (first : Bool) : List Char → (List Char × List Char)
  | [] => ([], [])
  | c :: rest =>
    if identCharOk first c then
      let (a, b) := eatIdentifierAux false rest
      (c :: a, b)
    else ([], c :: rest)

/-- eat_identifier from types/mod.rs: splits a leading identifier off the
input, returning (identifier, remainder). -/
def eatIdentifier (input : List Char) : List Char × List Char :=
  eatIdentifierAux true input

/-- Left-trim of Unicode whitespace (str::trim_start). -/
def trimLeft : List Char → List Char
  | [] => []
  | c :: rest => if c.isWhitespace then trimLeft rest else c :: rest

/-- str::trim: whitespace removed from both ends. -/
def trim (s : List Char) : List Char :=
  ((trimLeft s).reverse |> trimLeft).reverse

/-- The running parenthesis counter of the parse_args loop, as an integer
(in_parens in the source; the source uses a usize whose release-mode
wrap-around agrees with integer arithmetic for inputs shorter than
2^64). -/
def parenSum : List Char → Int
  | [] => 0
  | c :: rest =>
    (if c = '(' then 1 else if c = ')' then -1 else 0) + parenSum rest

/-- The splitting loop of parse_args: depth tracks in_parens, acc holds
the characters of the current argument in reverse.  A comma at depth 0
emits the trimmed current argument; at the end a nonempty current
argument is emitted (last_start != input.len() in the source). -/
def splitTopArgs : List Char → Int → List Char → List (List Char)
  | [], _, acc => if acc.isEmpty then [] else [trim acc.reverse]
  | c :: rest, depth, acc =>
    if c = ',' && depth == 0 then trim acc.reverse :: splitTopArgs rest depth []
    else if c = '(' then splitTopArgs rest (depth + 1) (c :: acc)
    else if c = ')' then splitTopArgs rest (depth - 1) (c :: acc)
    else splitTopArgs rest depth (c :: acc)

/-- parse_args from types/mod.rs: requires a leading '(' and trailing
')', trims the inside, splits it at top-level commas and trims each
piece; mismatched parentheses are an error. -/
def parseArgs (input : List Char) : Except PError (List (List Char)) :=
  if !(input.head? == some '(') || !(input.getLast? == some ')') then
    .error .malformedArguments
  else
    let inner := trim ((input.drop 1).dropLast)
    if parenSum inner != 0 then .error .mismatchedParens
    else .ok (splitTopArgs inner 0 [])

/-- Numeric value of a decimal digit character. -/
def charVal (c : Char) : Nat := c.toNat - 48

/-- Removal of the optional leading '+' sign accepted by
str::parse::<usize>. -/
def stripPlus : List Char → List Char
  | '+' :: rest => rest
  | s => s

/-- str::parse::<usize>: an optional '+' sign, then one or more ASCII
digits, failing on anything else and on overflow past usize::MAX. -/
def parseUsize (s : List Char) : Except PError Nat :=
  let digits := stripPlus s
  if digits.isEmpty then .error .intParseError
  else if !digits.all Char.isDigit then .error .intParseError
  else
    let n := digits.foldl (fun acc c => acc * 10 + charVal c) 0
    if n < 2 ^ 64 then .ok n else .error .intParseError

/-- Modelled from the spec: Tz::from_str of the external chrono-tz crate
resolves IANA names; on every name that Display can emit it returns the
timezone carrying that name, so it is modelled as total on names. -/
def tzFromStr (s : List Char) : Except PError Tz := .ok ⟨s⟩

/-- The for loop of the Tuple arm of FromStr: each argument is trimmed
again and parsed with f, the first error propagating. -/
def fromStrList (f : List Char → Except PError Type') :
    List (List Char) → Except PError (List Type')
  | [] => .ok []
  | a :: rest => do
    let t ← f (trim a)
    let ts ← fromStrList f rest
    .ok (t :: ts)

/-- The argument-bearing branch of FromStr for Type (the match on ident
inside the case where following is nonempty), with recur standing for
the recursive Type::from_str calls. -/
def fromStrArgs (recur : List Char → Except PError Type') (ident : List Char)
    (args : List (List Char)) : Except PError Type' :=
  if ident = cs "Decimal" then
    match args with
    | [a0, a1] => do
      let p ← parseUsize a0
      let s ← parseUsize a1
      if p ≤ 9 then .ok (.decimal32 s)
      else if p ≤ 18 then .ok (.decimal64 s)
      else if p ≤ 38 then .ok (.decimal128 s)
      else if p ≤ 76 then .ok (.decimal256 s)
      else .error .badDecimalSpec
    | _ => .error (.badArgCount "Decimal")
  else if ident = cs "Decimal32" then
    match args with
    | [a0] => do
      let s ← parseUsize a0
      .ok (.decimal32 s)
    | _ => .error (.badArgCount "Decimal32")
  else if ident = cs "Decimal64" then
    match args with
    | [a0] => do
      let s ← parseUsize a0
      .ok (.decimal64 s)
    | _ => .error (.badArgCount "Decimal64")
  else if ident = cs "Decimal128" then
    match args with
    | [a0] => do
      let s ← parseUsize a0
      .ok (.decimal128 s)
    | _ => .error (.badArgCount "Decimal128")
  else if ident = cs "Decimal256" then
    match args with
    | [a0] => do
      let s ← parseUsize a0
      .ok (.decimal256 s)
    | _ => .error (.badArgCount "Decimal256")
  else if ident = cs "FixedString" then
    match args with
    | [a0] => do
      let n ← parseUsize a0
      .ok (.fixedString n)
    | _ => .error (.badArgCount "FixedString")
  else if ident = cs "DateTime" then
    match args with
    | [a0] =>
      if !(a0.head? == some '\'') || !(a0.getLast? == some '\'') then
        .error (.badTimezone "DateTime")
      else do
        let tz ← tzFromStr ((a0.drop 1).dropLast)
        .ok (.dateTime tz)
    | _ => .error (.badArgCount "DateTime")
  else if ident = cs "DateTime64" then
    match args with
    | [a0, a1] =>
      if !(a1.head? == some '\'') || !(a1.getLast? == some '\'') then
        .error (.badTimezone "DateTime64")
      else do
        let p ← parseUsize a0
        let tz ← tzFromStr ((a1.drop 1).dropLast)
        .ok (.dateTime64 p tz)
    | [a0] => do
      let p ← parseUsize a0
      .ok (.dateTime64 p Tz.utc)
    | _ => .error (.badArgCount "DateTime64")
  else if ident = cs "Enum8" then .error .panicTodo
  else if ident = cs "Enum16" then .error .panicTodo
  else if ident = cs "LowCardinality" then
    match args with
    | [a0] => do
      let t ← recur a0
      .ok (.lowCardinality t)
    | _ => .error (.badArgCount "LowCardinality")
  else if ident = cs "Array" then
    match args with
    | [a0] => do
      let t ← recur a0
      .ok (.array t)
    | _ => .error (.badArgCount "Array")
  else if ident = cs "Nested" then .error .panicTodo
  else if ident = cs "Tuple" then do
    let inner ← fromStrList recur args
    .ok (.tuple inner)
  else if ident = cs "Nullable" then
    match args with
    | [a0] => do
      let t ← recur a0
      .ok (.nullable t)
    | _ => .error (.badArgCount "Nullable")
  else if ident = cs "Map" then
    match args with
    | [a0, a1] => do
      let k ← recur a0
      let v ← recur a1
      .ok (.map k v)
    | _ => .error (.badArgCount "Map")
  else .error .invalidTypeWithArguments

/-- The no-argument branch of FromStr for Type (the final match on
ident). -/
def fromStrScalar (ident : List Char) : Except PError Type' :=
  if ident = cs "Int8" then .ok .int8
  else if ident = cs "Int16" then .ok .int16
  else if ident = cs "Int32" then .ok .int32
  else if ident = cs "Int64" then .ok .int64
  else if ident = cs "Int128" then .ok .int128
  else if ident = cs "Int256" then .ok .int256
  else if ident = cs "UInt8" then .ok .uint8
  else if ident = cs "UInt16" then .ok .uint16
  else if ident = cs "UInt32" then .ok .uint32
  else if ident = cs "UInt64" then .ok .uint64
  else if ident = cs "UInt128" then .ok .uint128
  else if ident = cs "UInt256" then .ok .uint256
  else if ident = cs "Float32" then .ok .float32
  else if ident = cs "Float64" then .ok .float64
  else if ident = cs "String" then .ok .string
  else if ident = cs "UUID" then .ok .uuid
  else if ident = cs "Date" then .ok .date
  else if ident = cs "DateTime" then .ok (.dateTime Tz.utc)
  else if ident = cs "IPv4" then .ok .ipv4
  else if ident = cs "IPv6" then .ok .ipv6
  else .error .invalidTypeName

/-- The body of FromStr for Type after the identifier has been split off
and the remainder trimmed: empty identifiers fail, a nonempty remainder
goes through parse_args and the argument-bearing branch, an empty one
through the scalar branch. -/
def fromStrCore (recur : List Char → Except PError Type') (ident : List Char)
    (following : List Char) : Except PError Type' :=
  if ident.isEmpty then .error .emptyIdentifier
  else if !following.isEmpty then
    match parseArgs following with
    | .error e => .error e
    | .ok args => fromStrArgs recur ident args
  else fromStrScalar ident

/-- FromStr for Type from types/mod.rs, with a structural fuel bound (the
recursion is on strict substrings, so any fuel above the input length
behaves identically; Type'.from_str below supplies it). -/
def fromStrF : Nat → List Char → Except PError Type'
  | 0, _ => .error .outOfFuel
  | fuel + 1, s =>
    let (ident, following) := eatIdentifier s
    fromStrCore (fromStrF fuel) ident (trim following)

/-- FromStr for Type: the fuel bound length + 1 strictly dominates every
recursive call (arguments are strict substrings of the bracketed tail),
so the fuel is never exhausted. -/
def Type'.from_str (s : List Char) : Except PError Type' :=
  fromStrF (s.length + 1) s

/-- Digit-extraction loop of Display for usize, prepending digits least
significant last; fuel is structural and n itself always suffices. -/
def natToCharsAux : Nat → Nat → List Char → List Char
  | 0, _, acc => acc
  | fuel + 1, n, acc =>
    let acc' := Nat.digitChar (n % 10) :: acc
    if n / 10 = 0 then acc' else natToCharsAux fuel (n / 10) acc'

/-- Decimal digits of n, most significant first (Display for usize). -/
def natToChars (n : Nat) : List Char :=
  natToCharsAux (n + 1) n []

/-- The items.iter().map(name=value).join(",") of the Enum arms of
ToString. -/
def printEnumItems : List (List Char × Nat) → List Char
  | [] => []
  | [(name, v)] => name ++ cs "=" ++ natToChars v
  | (name, v) :: items => name ++ cs "=" ++ natToChars v ++ cs "," ++ printEnumItems items

mutual

/-- ToString for Type from types/mod.rs (to_string), producing the list
of characters of the canonical printed form. -/
def Type'.to_string : Type' → List Char
  | .int8 => cs "Int8"
  | .int16 => cs "Int16"
  | .int32 => cs "Int32"
  | .int64 => cs "Int64"
  | .int128 => cs "Int128"
  | .int256 => cs "Int256"
  | .uint8 => cs "UInt8"
  | .uint16 => cs "UInt16"
  | .uint32 => cs "UInt32"
  | .uint64 => cs "UInt64"
  | .uint128 => cs "UInt128"
  | .uint256 => cs "UInt256"
  | .float32 => cs "Float32"
  | .float64 => cs "Float64"
  | .decimal32 s => cs "Decimal32(" ++ natToChars s ++ cs ")"
  | .decimal64 s => cs "Decimal64(" ++ natToChars s ++ cs ")"
  | .decimal128 s => cs "Decimal128(" ++ natToChars s ++ cs ")"
  | .decimal256 s => cs "Decimal256(" ++ natToChars s ++ cs ")"
  | .string => cs "String"
  | .fixedString n => cs "FixedString(" ++ natToChars n ++ cs ")"
  | .uuid => cs "UUID"
  | .date => cs "Date"
  | .dateTime tz => cs "DateTime('" ++ tz.name ++ cs "')"
  | .dateTime64 precision tz =>
    cs "DateTime64(" ++ natToChars precision ++ cs ",'" ++ tz.name ++ cs "')"
  | .ipv4 => cs "IPv4"
  | .ipv6 => cs "IPv6"
  | .enum8 items => cs "Enum8(" ++ printEnumItems items ++ cs ")"
  | .enum16 items => cs "Enum16(" ++ printEnumItems items ++ cs ")"
  | .lowCardinality inner => cs "LowCardinality(" ++ inner.to_string ++ cs ")"
  | .array inner => cs "Array(" ++ inner.to_string ++ cs ")"
  | .tuple items => cs "Tuple(" ++ printTypeList items ++ cs ")"
  | .nullable inner => cs "Nullable(" ++ inner.to_string ++ cs ")"
  | .map key value => cs "Map(" ++ key.to_string ++ cs "," ++ value.to_string ++ cs ")"

/-- The items.iter().map(to_string).join(",") of the Tuple arm of
ToString. -/
def printTypeList : List Type' → List Char
  | [] => []
  | [t] => t.to_string
  | t :: ts => t.to_string ++ cs "," ++ printTypeList ts

end

/-- Errors of the Row implementation for bool in convert/mod.rs:
badLength for the length guard, touchLuck for the fallthrough. -/
inductive RowError where
  | badLength
  | touchLuck
deriving Repr, DecidableEq

/-- The for loop in the Row for bool in convert/mod.rs: the first UInt8
value returns Ok(v == 1); exhausting the list yields the fallthrough
error. -/
def boolDeserializeRowLoop : List (List Char × Type' × Value) → Except RowError Bool
  | [] => .error .touchLuck
  | (_name, _ttype, value) :: rest =>
    match value with
    | .uint8 v => .ok (match v with | 1 => true | _ => false)
    | _ => boolDeserializeRowLoop rest

/-- Row::deserialize_row for bool in convert/mod.rs. -/
def boolDeserializeRow (map : List (List Char × Type' × Value)) : Except RowError Bool :=
  if map.length ≠ 1 then .error .badLength
  else boolDeserializeRowLoop map

/-! Spec-side shape predicates used to state the claims. -/

/-- Shape predicate of the Nullable arm of Type::validate: the inner
types that Nullable may not contain. -/
def isCompositeInNullable : Type' → Bool
  | .array _ | .map _ _ | .lowCardinality _ | .tuple _ | .nullable _ => true
  | _ => false

/-- Shape predicate of the LowCardinality arm of Type::validate: the
types admitted inside LowCardinality after stripping one Nullable. -/
def lcAllowedShape : Type' → Bool
  | .string | .fixedString _ | .date | .dateTime _ | .ipv4 | .ipv6
  | .int8 | .int16 | .int32 | .int64 | .int128 | .int256
  | .uint8 | .uint16 | .uint32 | .uint64 | .uint128 | .uint256 => true
  | _ => false

mutual

/-- Spec-side measure for C6: the Array/Map nesting depth of a type.
Array and Map count one level, Tuple takes the maximum over its members,
Nullable and LowCardinality are transparent, scalars are zero. -/
def containerDepth : Type' → Nat
  | .array t => 1 + containerDepth t
  | .map k v => 1 + max (containerDepth k) (containerDepth v)
  | .tuple ts => containerDepthList ts
  | .nullable t => containerDepth t
  | .lowCardinality t => containerDepth t
  | _ => 0

/-- Maximum containerDepth over a list of types. -/
def containerDepthList : List Type' → Nat
  | [] => 0
  | t :: ts => max (containerDepth t) (containerDepthList ts)

end

/-- Spec-side child relation for C7: c is the type of a direct child
constructor of t (element of Array or LowCardinality, member of a Tuple,
inner type of a Nullable, key or value of a Map). -/
inductive ChildOf : Type' → Type' → Prop where
  | lowCardinality (t : Type') : ChildOf t (.lowCardinality t)
  | array (t : Type') : ChildOf t (.array t)
  | tupleMem {t : Type'} {ts : List Type'} : t ∈ ts → ChildOf t (.tuple ts)
  | nullable (t : Type') : ChildOf t (.nullable t)
  | mapKey (k v : Type') : ChildOf k (.map k v)
  | mapValue (k v : Type') : ChildOf v (.map k v)

/-- Spec-side relation for C7: c occurs strictly inside t (transitive
closure of ChildOf). -/
inductive OccursIn : Type' → Type' → Prop where
  | child {c t : Type'} : ChildOf c t → OccursIn c t
  | step {c m t : Type'} : OccursIn c m → ChildOf m t → OccursIn c t

mutual

/-- Spec-side predicate for C10: the type contains no Enum8 or Enum16
constructor. -/
def noEnum : Type' → Bool
  | .enum8 _ | .enum16 _ => false
  | .lowCardinality t => noEnum t
  | .array t => noEnum t
  | .nullable t => noEnum t
  | .tuple ts => noEnumList ts
  | .map k v => noEnum k && noEnum v
  | _ => true

/-- noEnum over a list of types. -/
def noEnumList : List Type' → Bool
  | [] => true
  | t :: ts => noEnum t && noEnumList ts

end

/-- Spec-side scan for C1: no comma of the input sits at parenthesis
depth zero when scanning from starting depth d (mirrors the depth
tracking of the parse_args splitting loop). -/
def noTopComma : List Char → Int → Bool
  | [], _ => true
  | c :: rest, d =>
    if c = ',' then d != 0 && noTopComma rest d
    else if c = '(' then noTopComma rest (d + 1)
    else if c = ')' then noTopComma rest (d - 1)
    else noTopComma rest d

/-- Characters that may appear in a timezone name without disturbing the
argument splitter: no whitespace, comma or parenthesis.  Every IANA name
resolvable by chrono-tz satisfies this. -/
def tzCharOk (c : Char) : Bool :=
  !c.isWhitespace && c != ',' && c != '(' && c != ')'

/-- A timezone whose name consists of splitter-safe characters. -/
def tzGood (tz : Tz) : Bool := tz.name.all tzCharOk

mutual

/-- Spec-side predicate for C1: the type contains no Enum8 or Enum16
constructor, every timezone name in it is splitter-safe, and every
numeric parameter fits in a usize.  The last two conditions hold of
every value of the Rust Type (timezones are chrono-tz values, numeric
parameters are usize); only the Enum exclusion excludes real types. -/
def printSafe : Type' → Bool
  | .enum8 _ => false
  | .enum16 _ => false
  | .dateTime tz => tzGood tz
  | .dateTime64 p tz => decide (p < 2 ^ 64) && tzGood tz
  | .decimal32 s => decide (s < 2 ^ 64)
  | .decimal64 s => decide (s < 2 ^ 64)
  | .decimal128 s => decide (s < 2 ^ 64)
  | .decimal256 s => decide (s < 2 ^ 64)
  | .fixedString n => decide (n < 2 ^ 64)
  | .lowCardinality t => printSafe t
  | .array t => printSafe t
  | .nullable t => printSafe t
  | .tuple ts => printSafeList ts
  | .map k v => printSafe k && printSafe v
  | _ => true

/-- printSafe over a list of types. -/
def printSafeList : List Type' → Bool
  | [] => true
  | t :: ts => printSafe t && printSafeList ts

end

end Klickhouse

namespace Klickhouse

/-! Helper lemmas about validate, shared by several claims. -/

/-- Unfolding of the Array arm of validate. -/
theorem validate_array_eq (inner : Type') (d : Nat) :
    Type'.validate (.array inner) d =
      if d ≥ 2 then .error .tooManyDimensions else inner.validate (d + 1) := rfl

/-- Unfolding of the Tuple arm of validate. -/
theorem validate_tuple_eq (ts : List Type') (d : Nat) :
    Type'.validate (.tuple ts) d = validateList ts d := rfl

/-- Unfolding of the Nullable arm of validate via the shape predicate. -/
theorem validate_nullable_eq (inner : Type') (d : Nat) :
    Type'.validate (.nullable inner) d =
      if isCompositeInNullable inner then .error .nullableComposite
      else inner.validate d := by
  cases inner <;> rfl

/-- Unfolding of the LowCardinality arm of validate via the shape
predicate. -/
theorem validate_lowCardinality_eq (inner : Type') (d : Nat) :
    Type'.validate (.lowCardinality inner) d =
      if lcAllowedShape inner.strip_null then inner.validate d
      else .error .illegalLowCardinalityType := by
  show (match inner.strip_null with
    | .string | .fixedString _ | .date | .dateTime _ | .ipv4 | .ipv6
    | .int8 | .int16 | .int32 | .int64 | .int128 | .int256
    | .uint8 | .uint16 | .uint32 | .uint64 | .uint128 | .uint256 =>
      inner.validate d
    | _ => (.error .illegalLowCardinalityType : Except VError Unit)) = _
  cases inner.strip_null <;> rfl

/-- Inversion of bind on Except with a Unit first component. -/
theorem except_bind_ok {ε α : Type} (a : Except ε Unit) (f : Unit → Except ε α)
    (u : α) : (a >>= f) = .ok u ↔ a = .ok () ∧ f () = .ok u := by
  cases a with
  | error e => simp [Bind.bind, Except.bind]
  | ok x => cases x; simp [Bind.bind, Except.bind]

/-- Success condition of the Map arm of validate. -/
theorem validate_map_ok_iff (k v : Type') (d : Nat) :
    Type'.validate (.map k v) d = .ok () ↔
      d < 2 ∧ isMapKeyLegal k = true ∧ k.validate (d + 1) = .ok () ∧
        isMapValueLegal v = true ∧ v.validate (d + 1) = .ok () := by
  show (if d ≥ 2 then (.error .tooManyDimensions : Except VError Unit)
    else if !isMapKeyLegal k then .error .illegalMapKey
    else do
      k.validate (d + 1)
      if !isMapValueLegal v then .error .illegalMapValue
      else v.validate (d + 1)) = .ok () ↔ _
  by_cases h2 : d ≥ 2
  · simp [h2]
  · simp only [h2, if_false]
    have hd : d < 2 := by omega
    by_cases hk : isMapKeyLegal k
    · simp only [hk, Bool.not_true, Bool.false_eq_true, if_false]
      rw [except_bind_ok]
      by_cases hv : isMapValueLegal v
      · simp [hk, hv, hd, and_assoc]
      · simp [hk, hv, hd]
    · simp [hk, hd]

/-- Success of validateList means success of validate on every member. -/
theorem validateList_ok_iff (ts : List Type') (d : Nat) :
    validateList ts d = .ok () ↔ ∀ t ∈ ts, Type'.validate t d = .ok () := by
  induction ts with
  | nil => simp [validateList]
  | cons t ts ih =>
    show (t.validate d >>= fun _ => validateList ts d) = .ok () ↔ _
    rw [except_bind_ok, ih]
    simp

/-- Validate of a non-container type ignores the dimension counter. -/
theorem validate_scalar_dims (T : Type') (h : isCompositeInNullable T = false)
    (d d' : Nat) : Type'.validate T d = Type'.validate T d' := by
  cases T <;> first
    | rfl
    | simp [isCompositeInNullable] at h

mutual

/-- Depth invariant: a type that validates at dimension d ≤ 2 has
container depth at most 2 - d. -/
theorem validate_depth_bound (t : Type') (d : Nat) (hd : d ≤ 2)
    (h : t.validate d = .ok ()) : containerDepth t + d ≤ 2 := by
  cases t with
  | array inner =>
    rw [validate_array_eq] at h
    by_cases h2 : d ≥ 2
    · simp [h2] at h
    · simp only [h2, if_false] at h
      have hi := validate_depth_bound inner (d + 1) (by omega) h
      show 1 + containerDepth inner + d ≤ 2
      omega
  | map k v =>
    rw [validate_map_ok_iff] at h
    obtain ⟨h1, _, hk, _, hv⟩ := h
    have hik := validate_depth_bound k (d + 1) (by omega) hk
    have hiv := validate_depth_bound v (d + 1) (by omega) hv
    show 1 + max (containerDepth k) (containerDepth v) + d ≤ 2
    omega
  | tuple ts =>
    rw [validate_tuple_eq] at h
    exact validateList_depth_bound ts d hd h
  | nullable inner =>
    rw [validate_nullable_eq] at h
    by_cases hc : isCompositeInNullable inner
    · simp [hc] at h
    · simp only [hc, if_false] at h
      exact validate_depth_bound inner d hd h
  | lowCardinality inner =>
    rw [validate_lowCardinality_eq] at h
    by_cases hc : lcAllowedShape inner.strip_null
    · simp only [hc, if_true] at h
      exact validate_depth_bound inner d hd h
    · simp [hc] at h
  | _ => exact (by omega : (0 : Nat) + d ≤ 2)

/-- Depth invariant over a list of tuple members. -/
theorem validateList_depth_bound (ts : List Type') (d : Nat) (hd : d ≤ 2)
    (h : validateList ts d = .ok ()) : containerDepthList ts + d ≤ 2 := by
  cases ts with
  | nil => exact (by omega : (0 : Nat) + d ≤ 2)
  | cons t rest =>
    rw [show validateList (t :: rest) d =
      (t.validate d >>= fun _ => validateList rest d) from rfl,
      except_bind_ok] at h
    obtain ⟨h1, h2⟩ := h
    have hit := validate_depth_bound t d hd h1
    have hir := validateList_depth_bound rest d hd h2
    show max (containerDepth t) (containerDepthList rest) + d ≤ 2
    omega

end

mutual

/-- Monotonicity of validate in the dimension counter: lowering the
counter preserves success. -/
theorem validate_mono (t : Type') (d d' : Nat) (hdd : d ≤ d')
    (h : t.validate d' = .ok ()) : t.validate d = .ok () := by
  cases t with
  | array inner =>
    rw [validate_array_eq] at h ⊢
    by_cases h2 : d' ≥ 2
    · simp [h2] at h
    · simp only [h2, if_false] at h
      simp only [show ¬(d ≥ 2) by omega, if_false]
      exact validate_mono inner (d + 1) (d' + 1) (by omega) h
  | map k v =>
    rw [validate_map_ok_iff] at h ⊢
    obtain ⟨h1, h2, h3, h4, h5⟩ := h
    exact ⟨by omega, h2, validate_mono k (d + 1) (d' + 1) (by omega) h3, h4,
      validate_mono v (d + 1) (d' + 1) (by omega) h5⟩
  | tuple ts =>
    rw [validate_tuple_eq] at h ⊢
    exact validateList_mono ts d d' hdd h
  | nullable inner =>
    rw [validate_nullable_eq] at h ⊢
    by_cases hc : isCompositeInNullable inner
    · simp [hc] at h
    · simp only [hc, if_false] at h ⊢
      exact validate_mono inner d d' hdd h
  | lowCardinality inner =>
    rw [validate_lowCardinality_eq] at h ⊢
    by_cases hc : lcAllowedShape inner.strip_null
    · simp only [hc, if_true] at h ⊢
      exact validate_mono inner d d' hdd h
    · simp [hc] at h
  | _ => rw [validate_scalar_dims _ (by rfl) d d']; exact h

/-- Monotonicity of validateList in the dimension counter. -/
theorem validateList_mono (ts : List Type') (d d' : Nat) (hdd : d ≤ d')
    (h : validateList ts d' = .ok ()) : validateList ts d = .ok () := by
  cases ts with
  | nil => rfl
  | cons t rest =>
    rw [show validateList (t :: rest) d' =
      (t.validate d' >>= fun _ => validateList rest d') from rfl,
      except_bind_ok] at h
    rw [show validateList (t :: rest) d =
      (t.validate d >>= fun _ => validateList rest d) from rfl,
      except_bind_ok]
    exact ⟨validate_mono t d d' hdd h.1, validateList_mono rest d d' hdd h.2⟩

end

/-- A direct child of a type that validates at dimension d validates at
dimension 0. -/
theorem childOf_validate (c t : Type') (d : Nat) (hc : ChildOf c t)
    (h : t.validate d = .ok ()) : c.validate 0 = .ok () := by
  cases hc with
  | lowCardinality =>
    rw [validate_lowCardinality_eq] at h
    by_cases hs : lcAllowedShape c.strip_null
    · simp only [hs, if_true] at h
      exact validate_mono c 0 d (Nat.zero_le d) h
    · simp [hs] at h
  | array =>
    rw [validate_array_eq] at h
    by_cases h2 : d ≥ 2
    · simp [h2] at h
    · simp only [h2, if_false] at h
      exact validate_mono c 0 (d + 1) (Nat.zero_le _) h
  | tupleMem hmem =>
    rw [validate_tuple_eq, validateList_ok_iff] at h
    exact validate_mono c 0 d (Nat.zero_le d) (h c hmem)
  | nullable =>
    rw [validate_nullable_eq] at h
    by_cases hs : isCompositeInNullable c
    · simp [hs] at h
    · simp only [hs, if_false] at h
      exact validate_mono c 0 d (Nat.zero_le d) h
  | mapKey _ v =>
    rw [validate_map_ok_iff] at h
    exact validate_mono c 0 (d + 1) (Nat.zero_le _) h.2.2.1
  | mapValue k _ =>
    rw [validate_map_ok_iff] at h
    exact validate_mono c 0 (d + 1) (Nat.zero_le _) h.2.2.2.2

/-- Claim C2 (code bug): validate on Decimal256(s) is claimed to succeed
if and only if 1 <= s <= 76, in particular for every s in 10..=76; the
source instead tests precision > 9 in the Decimal256 arm while its own
error message states the range (1..=76).  This theorem evaluates the
code at the failing input 10 and characterizes the whole arm: every
scale in 10..=76 is rejected. -/
theorem claim2_decimal256_scale_code_bug :
    Type'.validate (.decimal256 10) 0 =
      .error (.precisionOutOfBounds "Decimal256" 10 1 76) ∧
    (∀ s : Nat, Type'.validate (.decimal256 s) 0 =
      if s == 0 || s > 9 then .error (.precisionOutOfBounds "Decimal256" s 1 76)
      else .ok ()) := by
  refine ⟨rfl, fun s => ?_⟩
  simp only [Type'.validate]

/-- Claim C4: validate on Nullable(T) errors when T is an Array, Map,
LowCardinality, Tuple or Nullable constructor, and otherwise agrees with
validate of T; in particular Nullable(Array(Int8)) and
Nullable(Nullable(Int8)) are rejected. -/
theorem claim4_nullable_rejects_composites :
    (∀ T : Type', Type'.validate (.nullable T) 0 =
      if isCompositeInNullable T then .error .nullableComposite
      else Type'.validate T 0) ∧
    Type'.validate (.nullable (.array .int8)) 0 = .error .nullableComposite ∧
    Type'.validate (.nullable (.nullable .int8)) 0 = .error .nullableComposite := by
  refine ⟨fun T => ?_, rfl, rfl⟩
  cases T <;> rfl

/-- Claim C5: validate on LowCardinality(T) succeeds only when T, after
stripping at most one level of Nullable, is String, FixedString, Date,
DateTime, Ipv4, Ipv6 or an integer type; any other inner type yields an
error, as in the rejected LowCardinality(Array(Int8)). -/
theorem claim5_low_cardinality_inner_restriction :
    (∀ (T : Type') (d : Nat), Type'.validate (.lowCardinality T) d =
      if lcAllowedShape T.strip_null then Type'.validate T d
      else .error .illegalLowCardinalityType) ∧
    Type'.validate (.lowCardinality (.array .int8)) 0 =
      .error .illegalLowCardinalityType := by
  refine ⟨fun T d => ?_, rfl⟩
  simp only [Type'.validate]
  cases h : T.strip_null <;> simp [lcAllowedShape]

/-- Claim C8: the Row implementation for bool rejects inputs whose
column list has length other than one; on a single column it returns
Ok(v == 1) for a UInt8 value v and a typed error for any other value. -/
theorem claim8_bool_row :
    (∀ map : List (List Char × Type' × Value),
      map.length ≠ 1 → boolDeserializeRow map = .error .badLength) ∧
    (∀ (name : List Char) (t : Type') (n : Nat),
      boolDeserializeRow [(name, t, .uint8 n)] = .ok (n == 1)) ∧
    (∀ (name : List Char) (t : Type') (v : Value),
      (∀ n, v ≠ .uint8 n) → boolDeserializeRow [(name, t, v)] = .error .touchLuck) := by
  refine ⟨fun map h => ?_, fun name t n => ?_, fun name t v hv => ?_⟩
  · simp [boolDeserializeRow, h]
  · show boolDeserializeRowLoop [(name, t, .uint8 n)] = .ok (n == 1)
    cases n with
    | zero => rfl
    | succ k => cases k <;> rfl
  · show boolDeserializeRowLoop [(name, t, v)] = .error .touchLuck
    cases v <;> first
      | rfl
      | exact absurd rfl (hv _)

/-- Witness for C8 at concrete inputs: an empty column list, a single
UInt8(5) column, and a single String column. -/
theorem claim8_bool_row_witness :
    boolDeserializeRow [] = .error .badLength ∧
    boolDeserializeRow [(cs "x", .uint8, .uint8 5)] = .ok false ∧
    boolDeserializeRow [(cs "x", .string, .string [])] = .error .touchLuck :=
  ⟨claim8_bool_row.1 [] (by decide),
   claim8_bool_row.2.1 (cs "x") .uint8 5,
   claim8_bool_row.2.2 (cs "x") .string (.string [])
     (fun _ h => Value.noConfusion h)⟩

/-- Claim C9: the structural check on a Tuple type never compares
arities: it checks exactly the zip of component types with value
elements, so a Tuple value with fewer elements than the type declares,
or with extra trailing elements, is accepted. -/
theorem claim9_tuple_value_zip :
    (∀ (ts : List Type') (vs : List Value),
      Type'.inner_validate_value (.tuple ts) (.tuple vs) =
        ((ts.zip vs).all fun p => Type'.inner_validate_value p.1 p.2)) ∧
    Type'.inner_validate_value (.tuple [.int8, .string]) (.tuple [.int8 0]) = true ∧
    Type'.inner_validate_value (.tuple [.int8]) (.tuple [.int8 0, .string []]) = true := by
  refine ⟨fun ts vs => ?_, rfl, rfl⟩
  show innerValidateZip ts vs = _
  induction ts generalizing vs with
  | nil => cases vs <;> rfl
  | cons t ts ih =>
    cases vs with
    | nil => rfl
    | cons v vs =>
      show (Type'.inner_validate_value t v && innerValidateZip ts vs) = _
      rw [List.zip_cons_cons, List.all_cons, ih]

/-- Claim C6: validate enforces a container-nesting depth of at most 2:
a type that validates at depth 0 has containerDepth at most 2 (so any
type whose Array/Map nesting exceeds two levels is rejected);
Array(Array(T)) validates exactly as T does for non-container T; and
Array(Array(Array(Int8))) yields the too-many-dimensions error. -/
theorem claim6_dimension_limit :
    (∀ t : Type', t.validate 0 = .ok () → containerDepth t ≤ 2) ∧
    (∀ T : Type', isCompositeInNullable T = false →
      Type'.validate (.array (.array T)) 0 = Type'.validate T 0) ∧
    Type'.validate (.array (.array (.array .int8))) 0 = .error .tooManyDimensions := by
  refine ⟨fun t h => ?_, fun T hT => ?_, rfl⟩
  · have := validate_depth_bound t 0 (by omega) h
    omega
  · show Type'.validate T 2 = Type'.validate T 0
    exact validate_scalar_dims T hT 2 0

/-- Witness for C6 at concrete inputs: Array(Array(UInt8)) validates and
its depth is within bounds. -/
theorem claim6_dimension_limit_witness :
    containerDepth (.array (.array .uint8)) ≤ 2 ∧
    Type'.validate (.array (.array .uint8)) 0 = Type'.validate .uint8 0 :=
  ⟨claim6_dimension_limit.1 (.array (.array .uint8)) rfl,
   claim6_dimension_limit.2.1 .uint8 rfl⟩

/-- Claim C7: validation is monotone over the subtype relation: if a
type validates at depth 0 then every type occurring as a child
constructor anywhere inside it validates at depth 0 as well. -/
theorem claim7_validation_monotonicity (t c : Type') (hocc : OccursIn c t)
    (h : t.validate 0 = .ok ()) : c.validate 0 = .ok () := by
  revert h
  induction hocc with
  | child hchild => exact fun h => childOf_validate _ _ 0 hchild h
  | step _ hchild ih => exact fun h => ih (childOf_validate _ _ 0 hchild h)

/-- Witness for C7: UInt8 occurs inside Map(String, Array(UInt8)), which
validates at depth 0. -/
theorem claim7_validation_monotonicity_witness :
    Type'.validate (.map .string (.array .uint8)) 0 = .ok () ∧
    Type'.validate .uint8 0 = .ok () :=
  ⟨rfl,
   claim7_validation_monotonicity (.map .string (.array .uint8)) .uint8
     (OccursIn.step (OccursIn.child (ChildOf.array .uint8))
       (ChildOf.mapValue .string (.array .uint8))) rfl⟩

/-- Unfolding of the LowCardinality arm of inner_validate_value, which
matches any value. -/
theorem ivv_lowCardinality_eq (x : Type') (v : Value) :
    (Type'.lowCardinality x).inner_validate_value v = x.inner_validate_value v := by
  cases v <;> rfl

mutual

/-- The default value of an Enum8/Enum16-free type passes the structural
check against that type. -/
theorem default_value_validates (t : Type') (h : noEnum t = true) :
    t.inner_validate_value t.default_value = true := by
  cases t with
  | decimal32 s => show (s == s) = true; simp
  | decimal64 s => show (s == s) = true; simp
  | decimal128 s => show (s == s) = true; simp
  | decimal256 s => show (s == s) = true; simp
  | dateTime tz => show (tz.name == tz.name) = true; simp
  | dateTime64 p tz =>
    show ((tz.name == tz.name) && (p == p)) = true
    simp
  | enum8 entries => simp [noEnum] at h
  | enum16 entries => simp [noEnum] at h
  | lowCardinality x =>
    rw [show (Type'.lowCardinality x).default_value = x.default_value from rfl,
      ivv_lowCardinality_eq]
    exact default_value_validates x h
  | tuple ts => exact defaultValueList_validates ts h
  | _ => rfl

/-- The member-wise structural check on a list of types against their
default values. -/
theorem defaultValueList_validates (ts : List Type') (h : noEnumList ts = true) :
    innerValidateZip ts (defaultValueList ts) = true := by
  cases ts with
  | nil => rfl
  | cons t rest =>
    rw [show noEnumList (t :: rest) = (noEnum t && noEnumList rest) from rfl,
      Bool.and_eq_true] at h
    show (t.inner_validate_value t.default_value &&
      innerValidateZip rest (defaultValueList rest)) = true
    rw [default_value_validates t h.1, defaultValueList_validates rest h.2]
    rfl

end

/-! Lemmas about the character-level parsing helpers, leading to the
print/parse round-trip. -/

/-- An ASCII digit is not whitespace and is none of the splitter's
special characters. -/
theorem isDigit_facts (c : Char) (h : c.isDigit = true) :
    c.isWhitespace = false ∧ c ≠ ',' ∧ c ≠ '(' ∧ c ≠ ')' ∧ c ≠ '+' ∧ c ≠ '\'' := by
  refine ⟨?_, ?_, ?_, ?_, ?_, ?_⟩
  · cases hw : c.isWhitespace
    · rfl
    · exfalso
      simp only [Char.isWhitespace, Bool.or_eq_true, decide_eq_true_eq] at hw
      rcases hw with ((h1 | h1) | h1) | h1 <;> subst h1 <;> exact absurd h (by decide)
  all_goals (intro he; subst he; exact absurd h (by decide))

/-- A splitter-safe timezone character is not whitespace, comma or
parenthesis. -/
theorem tzCharOk_facts (c : Char) (h : tzCharOk c = true) :
    c.isWhitespace = false ∧ c ≠ ',' ∧ c ≠ '(' ∧ c ≠ ')' := by
  simp only [tzCharOk, Bool.and_eq_true, bne_iff_ne, Bool.not_eq_true'] at h
  exact ⟨h.1.1.1, h.1.1.2, h.1.2, h.2⟩

/-- trimLeft is the identity when the head is not whitespace. -/
theorem trimLeft_eq_self {l : List Char}
    (h : ∀ c, l.head? = some c → c.isWhitespace = false) : trimLeft l = l := by
  cases l with
  | nil => rfl
  | cons c rest => simp [trimLeft, h c rfl]

/-- trim is the identity when neither end is whitespace. -/
theorem trim_eq_self {l : List Char}
    (h1 : ∀ c, l.head? = some c → c.isWhitespace = false)
    (h2 : ∀ c, l.getLast? = some c → c.isWhitespace = false) : trim l = l := by
  unfold trim
  rw [trimLeft_eq_self h1,
    trimLeft_eq_self (fun c hc => h2 c (by rwa [List.head?_reverse] at hc)),
    List.reverse_reverse]

/-- trim is the identity on whitespace-free lists. -/
theorem trim_eq_self_of_noWs {l : List Char}
    (h : l.all (fun c => !c.isWhitespace) = true) : trim l = l := by
  rw [List.all_eq_true] at h
  refine trim_eq_self (fun c hc => ?_) (fun c hc => ?_)
  · have := h c (List.mem_of_mem_head? hc)
    simpa using this
  · have := h c (List.mem_of_getLast?_eq_some hc)
    simpa using this

/-- parenSum distributes over append. -/
theorem parenSum_append (p q : List Char) :
    parenSum (p ++ q) = parenSum p + parenSum q := by
  induction p with
  | nil => simp [parenSum]
  | cons c rest ih =>
    show (if c = '(' then (1 : Int) else if c = ')' then -1 else 0) +
      parenSum (rest ++ q) = _
    rw [ih]
    show _ = (if c = '(' then (1 : Int) else if c = ')' then -1 else 0) +
      parenSum rest + parenSum q
    ring

/-- noTopComma distributes over append, the second part scanned from the
depth reached after the first. -/
theorem noTopComma_append (p q : List Char) (d : Int) :
    noTopComma (p ++ q) d = (noTopComma p d && noTopComma q (d + parenSum p)) := by
  induction p generalizing d with
  | nil => simp [noTopComma, parenSum]
  | cons c rest ih =>
    by_cases hc : c = ','
    · subst hc
      show (d != 0 && noTopComma (rest ++ q) d) =
        ((d != 0 && noTopComma rest d) && noTopComma q (d + ((0 : Int) + parenSum rest)))
      rw [ih, show d + ((0 : Int) + parenSum rest) = d + parenSum rest from by ring]
      exact (Bool.and_assoc _ _ _).symm
    · by_cases h1 : c = '('
      · subst h1
        show noTopComma (rest ++ q) (d + 1) =
          (noTopComma rest (d + 1) && noTopComma q (d + ((1 : Int) + parenSum rest)))
        rw [ih, show d + ((1 : Int) + parenSum rest) = d + 1 + parenSum rest from by ring]
      · by_cases h2 : c = ')'
        · subst h2
          show noTopComma (rest ++ q) (d - 1) =
            (noTopComma rest (d - 1) && noTopComma q (d + ((-1 : Int) + parenSum rest)))
          rw [ih, show d + ((-1 : Int) + parenSum rest) = d - 1 + parenSum rest from by ring]
        · rw [List.cons_append,
            show ∀ l, noTopComma (c :: l) d =
              (if c = ',' then d != 0 && noTopComma l d
               else if c = '(' then noTopComma l (d + 1)
               else if c = ')' then noTopComma l (d - 1)
               else noTopComma l d) from fun l => rfl,
            show ∀ l, noTopComma (c :: l) d =
              (if c = ',' then d != 0 && noTopComma l d
               else if c = '(' then noTopComma l (d + 1)
               else if c = ')' then noTopComma l (d - 1)
               else noTopComma l d) from fun l => rfl,
            show parenSum (c :: rest) =
              (if c = '(' then (1 : Int) else if c = ')' then -1 else 0) +
                parenSum rest from rfl,
            ih]
          simp only [if_neg hc, if_neg h1, if_neg h2]
          rw [show d + ((0 : Int) + parenSum rest) = d + parenSum rest from by ring]

/-- Unfolding of splitTopArgs on a cons cell. -/
theorem splitTopArgs_cons (c : Char) (rest : List Char) (d : Int) (acc : List Char) :
    splitTopArgs (c :: rest) d acc =
      if c = ',' && d == 0 then trim acc.reverse :: splitTopArgs rest d []
      else if c = '(' then splitTopArgs rest (d + 1) (c :: acc)
      else if c = ')' then splitTopArgs rest (d - 1) (c :: acc)
      else splitTopArgs rest d (c :: acc) := rfl

/-- splitTopArgs consumes a comma-free (at this depth) fragment into the
accumulator, adjusting the depth by its paren sum. -/
theorem splitTopArgs_append (p q : List Char) (d : Int) (acc : List Char)
    (h : noTopComma p d = true) :
    splitTopArgs (p ++ q) d acc = splitTopArgs q (d + parenSum p) (p.reverse ++ acc) := by
  revert h
  induction p generalizing d acc with
  | nil =>
    intro _
    simp [parenSum]
  | cons c rest ih =>
    intro h
    rw [List.cons_append, splitTopArgs_cons]
    by_cases hc : c = ','
    · subst hc
      have h' : (d != 0 && noTopComma rest d) = true := h
      rw [Bool.and_eq_true] at h'
      have hd0 : (d == 0) = false := by
        have hne : d ≠ 0 := by simpa using h'.1
        simp [hne]
      simp only [hd0, Bool.and_false, if_false]
      rw [if_neg (by decide : ¬(',' = '(')), if_neg (by decide : ¬(',' = ')')),
        ih _ _ h'.2,
        show d + parenSum (',' :: rest) = d + parenSum rest from by
          rw [show parenSum (',' :: rest) = (0 : Int) + parenSum rest from rfl]; ring]
      simp only [List.reverse_cons, List.append_assoc, List.singleton_append]
      exact ih _ _ h'.2
    · by_cases h1 : c = '('
      · subst h1
        have h' : noTopComma rest (d + 1) = true := h
        rw [if_neg (by simp : ¬(('(' = ',' && d == 0) = true)), if_pos rfl,
          ih _ _ h',
          show d + parenSum ('(' :: rest) = d + 1 + parenSum rest from by
            rw [show parenSum ('(' :: rest) = (1 : Int) + parenSum rest from rfl]; ring]
        simp [List.append_assoc]
      · by_cases h2 : c = ')'
        · subst h2
          have h' : noTopComma rest (d - 1) = true := h
          rw [if_neg (by simp : ¬((')' = ',' && d == 0) = true)),
            if_neg (by decide : ¬(')' = '(')), if_pos rfl,
            ih _ _ h',
            show d + parenSum (')' :: rest) = d - 1 + parenSum rest from by
              rw [show parenSum (')' :: rest) = (-1 : Int) + parenSum rest from rfl]; ring]
          simp [List.append_assoc]
        · have h' : noTopComma rest d = true := by
            have e : noTopComma (c :: rest) d = noTopComma rest d := by
              rw [show ∀ l, noTopComma (c :: l) d =
                (if c = ',' then d != 0 && noTopComma l d
                 else if c = '(' then noTopComma l (d + 1)
                 else if c = ')' then noTopComma l (d - 1)
                 else noTopComma l d) from fun l => rfl,
                if_neg hc, if_neg h1, if_neg h2]
            rw [← e]; exact h
          rw [if_neg (by simp [hc] : ¬((c = ',' && d == 0) = true)),
            if_neg h1, if_neg h2, ih _ _ h',
            show d + parenSum (c :: rest) = d + parenSum rest from by
              rw [show parenSum (c :: rest) =
                (if c = '(' then (1 : Int) else if c = ')' then -1 else 0) +
                  parenSum rest from rfl, if_neg h1, if_neg h2]; ring]
          simp [List.append_assoc]

/-- splitTopArgs on a single whole fragment yields that fragment. -/
theorem splitTopArgs_single (p : List Char) (h1 : noTopComma p 0 = true)
    (h2 : parenSum p = 0) (h3 : p ≠ []) (h4 : trim p = p) :
    splitTopArgs p 0 [] = [p] := by
  have e := splitTopArgs_append p [] 0 [] h1
  rw [List.append_nil, h2] at e
  rw [e]
  show (if (p.reverse ++ []).isEmpty then [] else [trim (p.reverse ++ []).reverse]) = [p]
  rw [List.append_nil, List.reverse_reverse, h4,
    show p.reverse.isEmpty = false from by
      cases p with
      | nil => exact absurd rfl h3
      | cons a l => simp]
  rfl

/-- splitTopArgs on a fragment followed by a top-level comma emits the
fragment and continues. -/
theorem splitTopArgs_sep (p q : List Char) (h1 : noTopComma p 0 = true)
    (h2 : parenSum p = 0) (h4 : trim p = p) :
    splitTopArgs (p ++ ',' :: q) 0 [] = p :: splitTopArgs q 0 [] := by
  rw [splitTopArgs_append p (',' :: q) 0 [] h1, h2, List.append_nil,
    show (0 : Int) + 0 = 0 from rfl]
  show trim p.reverse.reverse :: splitTopArgs q 0 [] = _
  rw [List.reverse_reverse, h4]

/-- parse_args on a parenthesized whitespace-free balanced body returns
the top-level comma split of the body. -/
theorem parseArgs_print (body : List Char)
    (hnw : body.all (fun c => !c.isWhitespace) = true)
    (hps : parenSum body = 0) :
    parseArgs ('(' :: (body ++ [')'])) = .ok (splitTopArgs body 0 []) := by
  rw [show ('(' :: (body ++ [')'])) = ('(' :: body) ++ [')'] from rfl]
  unfold parseArgs
  rw [List.getLast?_concat,
    show (('(' :: body) ++ [')']).head? = some '(' from rfl,
    if_neg (by decide)]
  show (if parenSum (trim (((('(' :: body) ++ [')']).drop 1).dropLast)) != 0 then
      (.error .mismatchedParens : Except PError (List (List Char)))
    else .ok (splitTopArgs (trim (((('(' :: body) ++ [')']).drop 1).dropLast)) 0 [])) = _
  rw [show ((('(' :: body) ++ [')']).drop 1) = body ++ [')'] from rfl,
    List.dropLast_concat, trim_eq_self_of_noWs hnw, hps]
  rfl

/-- The identifier scanner consumes identifier characters up to a
non-identifier character or the end of input. -/
theorem eatIdentifierAux_consume (xs rest : List Char)
    (hxs : xs.all (identCharOk false) = true)
    (hrest : rest = [] ∨ ∃ c2 cs2, rest = c2 :: cs2 ∧ identCharOk false c2 = false) :
    eatIdentifierAux false (xs ++ rest) = (xs, rest) := by
  induction xs with
  | nil =>
    rcases hrest with h | ⟨c2, cs2, rfl, hc2⟩
    · subst h; rfl
    · simp [eatIdentifierAux, hc2]
  | cons x xs ih =>
    rw [List.all_cons, Bool.and_eq_true] at hxs
    simp [eatIdentifierAux, hxs.1, ih hxs.2]

/-- eat_identifier on an identifier followed by a stopper splits exactly
at the stopper. -/
theorem eatIdentifier_print (c : Char) (xs rest : List Char)
    (hc : identCharOk true c = true)
    (hxs : xs.all (identCharOk false) = true)
    (hrest : rest = [] ∨ ∃ c2 cs2, rest = c2 :: cs2 ∧ identCharOk false c2 = false) :
    eatIdentifier (c :: (xs ++ rest)) = (c :: xs, rest) := by
  unfold eatIdentifier
  simp [eatIdentifierAux, hc, eatIdentifierAux_consume xs rest hxs hrest]

/-- One fuel step of the parser. -/
theorem fromStrF_succ (m : Nat) (s : List Char) :
    fromStrF (m + 1) s =
      fromStrCore (fromStrF m) (eatIdentifier s).1 (trim (eatIdentifier s).2) := rfl

/-- Unfolding of one step of the digit-extraction loop. -/
theorem natToCharsAux_succ (m n : Nat) (acc : List Char) :
    natToCharsAux (m + 1) n acc =
      if n / 10 = 0 then Nat.digitChar (n % 10) :: acc
      else natToCharsAux m (n / 10) (Nat.digitChar (n % 10) :: acc) := rfl

/-- The digit-extraction loop threads its accumulator as a suffix. -/
theorem natToCharsAux_acc (fuel n : Nat) (acc : List Char) :
    natToCharsAux fuel n acc = natToCharsAux fuel n [] ++ acc := by
  induction fuel generalizing n acc with
  | zero => rfl
  | succ m ih =>
    rw [natToCharsAux_succ, natToCharsAux_succ]
    by_cases h : n / 10 = 0
    · rw [if_pos h, if_pos h]; rfl
    · rw [if_neg h, if_neg h, ih (n / 10) (Nat.digitChar (n % 10) :: acc),
        ih (n / 10) [Nat.digitChar (n % 10)], List.append_assoc]
      rfl

/-- With sufficient fuel the digit-extraction loop produces exactly the
decimal digits, most significant first. -/
theorem natToCharsAux_digits (fuel n : Nat) (h0 : 0 < n) (hf : n ≤ fuel) :
    natToCharsAux fuel n [] = (Nat.digits 10 n).reverse.map Nat.digitChar := by
  induction fuel generalizing n with
  | zero => omega
  | succ m ih =>
    rw [natToCharsAux_succ, Nat.digits_def' (by norm_num : 1 < 10) h0]
    by_cases h : n / 10 = 0
    · rw [if_pos h, h]
      simp
    · have hdiv := Nat.div_lt_self h0 (by norm_num : 1 < 10)
      rw [if_neg h, natToCharsAux_acc, ih (n / 10) (Nat.pos_of_ne_zero h) (by omega)]
      simp

/-- Digit characters of values below ten are ASCII digits. -/
theorem digitChar_isDigit (d : Nat) (h : d < 10) : (Nat.digitChar d).isDigit = true := by
  interval_cases d <;> decide

/-- charVal inverts digitChar below ten. -/
theorem charVal_digitChar (d : Nat) (h : d < 10) : charVal (Nat.digitChar d) = d := by
  interval_cases d <;> decide

/-- Every character the numeric printer emits is an ASCII digit. -/
theorem natToChars_all_isDigit (n : Nat) : (natToChars n).all Char.isDigit = true := by
  by_cases h0 : n = 0
  · subst h0; decide
  · unfold natToChars
    rw [natToCharsAux_digits (n + 1) n (Nat.pos_of_ne_zero h0) (by omega),
      List.all_eq_true]
    intro c hc
    rw [List.mem_map] at hc
    obtain ⟨d, hd, rfl⟩ := hc
    exact digitChar_isDigit d
      (Nat.digits_lt_base (by norm_num) (List.mem_reverse.mp hd))

/-- The numeric printer never produces the empty string. -/
theorem natToChars_ne_nil (n : Nat) : natToChars n ≠ [] := by
  unfold natToChars
  rw [natToCharsAux_succ]
  by_cases h : n / 10 = 0
  · simp [h]
  · rw [if_neg h, natToCharsAux_acc]
    simp

/-- The parse fold is unchanged when each digit value is routed through
digitChar and charVal. -/
theorem foldl_digits_congr (l : List Nat) (a : Nat) (h : ∀ d ∈ l, d < 10) :
    l.foldl (fun acc d => acc * 10 + charVal (Nat.digitChar d)) a =
      l.foldl (fun acc d => acc * 10 + d) a := by
  induction l generalizing a with
  | nil => rfl
  | cons d rest ih =>
    rw [List.foldl_cons, List.foldl_cons, charVal_digitChar d (h d (by simp))]
    exact ih _ (fun x hx => h x (by simp [hx]))

/-- The right fold of the parse step equals Nat.ofDigits base ten. -/
theorem foldr_ofDigits (l : List Nat) :
    l.foldr (fun d a => a * 10 + d) 0 = Nat.ofDigits 10 l := by
  induction l with
  | nil => simp [Nat.ofDigits]
  | cons d rest ih =>
    rw [List.foldr_cons, ih, Nat.ofDigits_cons]
    ring

/-- The parse fold over the printed digits recovers the number. -/
theorem parse_digits_val (n : Nat) :
    (natToChars n).foldl (fun acc c => acc * 10 + charVal c) 0 = n := by
  by_cases h0 : n = 0
  · subst h0; decide
  · unfold natToChars
    rw [natToCharsAux_digits (n + 1) n (Nat.pos_of_ne_zero h0) (by omega),
      List.foldl_map,
      foldl_digits_congr _ _ (fun d hd =>
        Nat.digits_lt_base (by norm_num) (List.mem_reverse.mp hd)),
      List.foldl_reverse]
    have : (Nat.digits 10 n).foldr (fun d a => a * 10 + d) 0 = n := by
      rw [foldr_ofDigits]
      exact_mod_cast Nat.ofDigits_digits 10 n
    simpa using this

/-- stripPlus leaves a list alone when its head is not '+'. -/
theorem stripPlus_of_ne (c : Char) (rest : List Char) (h : c ≠ '+') :
    stripPlus (c :: rest) = c :: rest := by
  unfold stripPlus
  split
  · rename_i heq
    injection heq with h1 _
    exact absurd h1 h
  · rfl

/-- parseUsize inverts the numeric printer for values below 2^64. -/
theorem parseUsize_natToChars (n : Nat) (h : n < 2 ^ 64) :
    parseUsize (natToChars n) = .ok n := by
  have hdig := natToChars_all_isDigit n
  have hne := natToChars_ne_nil n
  have hsp : stripPlus (natToChars n) = natToChars n := by
    cases hc : natToChars n with
    | nil => exact absurd hc hne
    | cons c rest =>
      have hcdig : c.isDigit = true := by
        rw [hc, List.all_cons, Bool.and_eq_true] at hdig
        exact hdig.1
      exact stripPlus_of_ne c rest (isDigit_facts c hcdig).2.2.2.2.1
  have hemp : (natToChars n).isEmpty = false := by
    cases hc : natToChars n with
    | nil => exact absurd hc hne
    | cons c rest => rfl
  unfold parseUsize
  rw [hsp]
  show (if (natToChars n).isEmpty then (.error .intParseError : Except PError Nat)
    else if !(natToChars n).all Char.isDigit then .error .intParseError
    else if (natToChars n).foldl (fun acc c => acc * 10 + charVal c) 0 < 2 ^ 64 then
      .ok ((natToChars n).foldl (fun acc c => acc * 10 + charVal c) 0)
    else .error .intParseError) = .ok n
  rw [hemp, hdig, parse_digits_val]
  simp only [Bool.not_true, Bool.false_eq_true, if_false]
  rw [if_pos (by exact_mod_cast h)]

/-- Unfolding of noTopComma on a cons cell. -/
theorem noTopComma_cons (c : Char) (l : List Char) (d : Int) :
    noTopComma (c :: l) d =
      if c = ',' then d != 0 && noTopComma l d
      else if c = '(' then noTopComma l (d + 1)
      else if c = ')' then noTopComma l (d - 1)
      else noTopComma l d := rfl

/-- Unfolding of parenSum on a cons cell. -/
theorem parenSum_cons (c : Char) (l : List Char) :
    parenSum (c :: l) =
      (if c = '(' then (1 : Int) else if c = ')' then -1 else 0) + parenSum l := rfl

/-- Concatenation of two comma-safe scans is comma-safe. -/
theorem noTopComma_append_true {p q : List Char} {d : Int}
    (hp : noTopComma p d = true) (hq : noTopComma q (d + parenSum p) = true) :
    noTopComma (p ++ q) d = true := by
  rw [noTopComma_append, hp, hq]
  rfl

/-- A fragment with no comma or parenthesis is balanced and comma-safe at
every depth. -/
theorem plain_frag (l : List Char) (h : ∀ c ∈ l, c ≠ ',' ∧ c ≠ '(' ∧ c ≠ ')') :
    parenSum l = 0 ∧ (∀ d : Int, noTopComma l d = true) := by
  induction l with
  | nil => exact ⟨rfl, fun _ => rfl⟩
  | cons c rest ih =>
    obtain ⟨hc, h1, h2⟩ := h c (by simp)
    obtain ⟨ihp, ihc⟩ := ih (fun x hx => h x (by simp [hx]))
    constructor
    · rw [parenSum_cons, if_neg h1, if_neg h2, ihp]
      ring
    · intro d
      rw [noTopComma_cons, if_neg hc, if_neg h1, if_neg h2]
      exact ihc d

/-- The printed digits of a number form a plain fragment. -/
theorem natToChars_plain (n : Nat) :
    parenSum (natToChars n) = 0 ∧ (∀ d : Int, noTopComma (natToChars n) d = true) := by
  refine plain_frag _ (fun c hc => ?_)
  have hd := List.all_eq_true.mp (natToChars_all_isDigit n) c hc
  obtain ⟨_, h1, h2, h3, _, _⟩ := isDigit_facts c hd
  exact ⟨h1, h2, h3⟩

/-- The printed digits of a number contain no whitespace. -/
theorem natToChars_noWs (n : Nat) :
    (natToChars n).all (fun c => !c.isWhitespace) = true := by
  rw [List.all_eq_true]
  intro c hc
  have hd := List.all_eq_true.mp (natToChars_all_isDigit n) c hc
  simp [(isDigit_facts c hd).1]

/-- A splitter-safe timezone name is a plain fragment. -/
theorem tzName_plain (tz : Tz) (h : tzGood tz = true) :
    parenSum tz.name = 0 ∧ (∀ d : Int, noTopComma tz.name d = true) := by
  refine plain_frag _ (fun c hc => ?_)
  have := tzCharOk_facts c (List.all_eq_true.mp h c hc)
  exact ⟨this.2.1, this.2.2.1, this.2.2.2⟩

/-- A splitter-safe timezone name contains no whitespace. -/
theorem tzName_noWs (tz : Tz) (h : tzGood tz = true) :
    tz.name.all (fun c => !c.isWhitespace) = true := by
  rw [List.all_eq_true]
  intro c hc
  simp [(tzCharOk_facts c (List.all_eq_true.mp h c hc)).1]

/-- trim does not touch a parenthesized body. -/
theorem trim_paren_body (body : List Char) :
    trim ('(' :: (body ++ [')'])) = '(' :: (body ++ [')']) := by
  refine trim_eq_self (fun c hc => ?_) (fun c hc => ?_)
  · rw [show ('(' :: (body ++ [')'])).head? = some '(' from rfl] at hc
    injection hc with h
    subst h
    decide
  · rw [show ('(' :: (body ++ [')'])) = ('(' :: body) ++ [')'] from rfl,
      List.getLast?_concat] at hc
    injection hc with h
    subst h
    decide

/-- A single comma is comma-safe at any nonzero depth. -/
theorem comma_piece (d : Int) (hd : d ≠ 0) : noTopComma (cs ",") d = true := by
  show (d != 0 && true) = true
  simp [bne_iff_ne, hd]

/-- A comma followed by a quote is comma-safe at any nonzero depth. -/
theorem comma_quote_piece (d : Int) (hd : d ≠ 0) : noTopComma (cs ",'") d = true := by
  show (d != 0 && true) = true
  simp [bne_iff_ne, hd]

/-- Print-fragment invariants for the shape opener ++ middle ++ closer,
where the opener contributes one open paren and the closer one close
paren. -/
theorem wrap_frag (A mid C : List Char)
    (hA0 : parenSum A = 1) (hAc : ∀ d : Int, noTopComma A d = true)
    (hAw : A.all (fun c => !c.isWhitespace) = true)
    (hm0 : parenSum mid = 0)
    (hmc : ∀ d : Int, 0 < d → noTopComma mid d = true)
    (hmw : mid.all (fun c => !c.isWhitespace) = true)
    (hC0 : parenSum C = -1) (hCc : ∀ d : Int, noTopComma C d = true)
    (hCw : C.all (fun c => !c.isWhitespace) = true) :
    parenSum ((A ++ mid) ++ C) = 0 ∧
    (∀ d : Int, 0 ≤ d → noTopComma ((A ++ mid) ++ C) d = true) ∧
    ((A ++ mid) ++ C).all (fun c => !c.isWhitespace) = true := by
  refine ⟨?_, ?_, ?_⟩
  · rw [parenSum_append, parenSum_append, hA0, hm0, hC0]
    omega
  · intro d hd
    refine noTopComma_append_true (noTopComma_append_true (hAc d) ?_) (hCc _)
    rw [hA0]
    exact hmc (d + 1) (by omega)
  · rw [List.all_append, List.all_append, hAw, hmw, hCw]
    rfl

/-- Print-fragment invariants for the shape opener ++ middle ++
separator ++ middle ++ closer. -/
theorem wrap_frag2 (A m1 B m2 C : List Char)
    (hA0 : parenSum A = 1) (hAc : ∀ d : Int, noTopComma A d = true)
    (hAw : A.all (fun c => !c.isWhitespace) = true)
    (h10 : parenSum m1 = 0)
    (h1c : ∀ d : Int, 0 < d → noTopComma m1 d = true)
    (h1w : m1.all (fun c => !c.isWhitespace) = true)
    (hB0 : parenSum B = 0)
    (hBc : ∀ d : Int, d ≠ 0 → noTopComma B d = true)
    (hBw : B.all (fun c => !c.isWhitespace) = true)
    (h20 : parenSum m2 = 0)
    (h2c : ∀ d : Int, 0 < d → noTopComma m2 d = true)
    (h2w : m2.all (fun c => !c.isWhitespace) = true)
    (hC0 : parenSum C = -1) (hCc : ∀ d : Int, noTopComma C d = true)
    (hCw : C.all (fun c => !c.isWhitespace) = true) :
    parenSum ((((A ++ m1) ++ B) ++ m2) ++ C) = 0 ∧
    (∀ d : Int, 0 ≤ d → noTopComma ((((A ++ m1) ++ B) ++ m2) ++ C) d = true) ∧
    ((((A ++ m1) ++ B) ++ m2) ++ C).all (fun c => !c.isWhitespace) = true := by
  refine ⟨?_, ?_, ?_⟩
  · rw [parenSum_append, parenSum_append, parenSum_append, parenSum_append,
      hA0, h10, hB0, h20, hC0]
    omega
  · intro d hd
    refine noTopComma_append_true (noTopComma_append_true (noTopComma_append_true
      (noTopComma_append_true (hAc d) ?_) ?_) ?_) (hCc _)
    · rw [hA0]
      exact h1c (d + 1) (by omega)
    · rw [parenSum_append, hA0, h10]
      exact hBc (d + (1 + 0)) (by omega)
    · rw [parenSum_append, parenSum_append, hA0, h10, hB0]
      exact h2c (d + (1 + 0 + 0)) (by omega)
  · rw [List.all_append, List.all_append, List.all_append, List.all_append,
      hAw, h1w, hBw, h2w, hCw]
    rfl

mutual

/-- Print invariants: the canonical printed form of a printSafe type is
balanced, keeps every comma inside at least one parenthesis, contains no
whitespace, and is nonempty. -/
theorem print_inv (t : Type') (hs : printSafe t = true) :
    parenSum t.to_string = 0 ∧
    (∀ d : Int, 0 ≤ d → noTopComma t.to_string d = true) ∧
    t.to_string.all (fun c => !c.isWhitespace) = true ∧
    t.to_string ≠ [] := by
  cases t with
  | decimal32 s =>
    have h := wrap_frag (cs "Decimal32(") (natToChars s) (cs ")")
      (by decide) (fun _ => rfl) (by decide)
      (natToChars_plain s).1 (fun d _ => (natToChars_plain s).2 d) (natToChars_noWs s)
      (by decide) (fun _ => rfl) (by decide)
    exact ⟨h.1, h.2.1, h.2.2, List.cons_ne_nil _ _⟩
  | decimal64 s =>
    have h := wrap_frag (cs "Decimal64(") (natToChars s) (cs ")")
      (by decide) (fun _ => rfl) (by decide)
      (natToChars_plain s).1 (fun d _ => (natToChars_plain s).2 d) (natToChars_noWs s)
      (by decide) (fun _ => rfl) (by decide)
    exact ⟨h.1, h.2.1, h.2.2, List.cons_ne_nil _ _⟩
  | decimal128 s =>
    have h := wrap_frag (cs "Decimal128(") (natToChars s) (cs ")")
      (by decide) (fun _ => rfl) (by decide)
      (natToChars_plain s).1 (fun d _ => (natToChars_plain s).2 d) (natToChars_noWs s)
      (by decide) (fun _ => rfl) (by decide)
    exact ⟨h.1, h.2.1, h.2.2, List.cons_ne_nil _ _⟩
  | decimal256 s =>
    have h := wrap_frag (cs "Decimal256(") (natToChars s) (cs ")")
      (by decide) (fun _ => rfl) (by decide)
      (natToChars_plain s).1 (fun d _ => (natToChars_plain s).2 d) (natToChars_noWs s)
      (by decide) (fun _ => rfl) (by decide)
    exact ⟨h.1, h.2.1, h.2.2, List.cons_ne_nil _ _⟩
  | fixedString n =>
    have h := wrap_frag (cs "FixedString(") (natToChars n) (cs ")")
      (by decide) (fun _ => rfl) (by decide)
      (natToChars_plain n).1 (fun d _ => (natToChars_plain n).2 d) (natToChars_noWs n)
      (by decide) (fun _ => rfl) (by decide)
    exact ⟨h.1, h.2.1, h.2.2, List.cons_ne_nil _ _⟩
  | dateTime tz =>
    have hg : tzGood tz = true := hs
    have h := wrap_frag (cs "DateTime('") tz.name (cs "')")
      (by decide) (fun _ => rfl) (by decide)
      (tzName_plain tz hg).1 (fun d _ => (tzName_plain tz hg).2 d) (tzName_noWs tz hg)
      (by decide) (fun _ => rfl) (by decide)
    exact ⟨h.1, h.2.1, h.2.2, List.cons_ne_nil _ _⟩
  | dateTime64 p tz =>
    have hs' : (decide (p < 2 ^ 64) && tzGood tz) = true := hs
    rw [Bool.and_eq_true] at hs'
    have h := wrap_frag2 (cs "DateTime64(") (natToChars p) (cs ",'") tz.name (cs "')")
      (by decide) (fun _ => rfl) (by decide)
      (natToChars_plain p).1 (fun d _ => (natToChars_plain p).2 d) (natToChars_noWs p)
      (by decide) comma_quote_piece (by decide)
      (tzName_plain tz hs'.2).1 (fun d _ => (tzName_plain tz hs'.2).2 d)
      (tzName_noWs tz hs'.2)
      (by decide) (fun _ => rfl) (by decide)
    exact ⟨h.1, h.2.1, h.2.2, List.cons_ne_nil _ _⟩
  | enum8 entries => exact Bool.noConfusion hs
  | enum16 entries => exact Bool.noConfusion hs
  | lowCardinality inner =>
    have hsi : printSafe inner = true := hs
    obtain ⟨h0, hc, hw, _⟩ := print_inv inner hsi
    have h := wrap_frag (cs "LowCardinality(") inner.to_string (cs ")")
      (by decide) (fun _ => rfl) (by decide)
      h0 (fun d hd => hc d (by omega)) hw
      (by decide) (fun _ => rfl) (by decide)
    exact ⟨h.1, h.2.1, h.2.2, List.cons_ne_nil _ _⟩
  | array inner =>
    have hsi : printSafe inner = true := hs
    obtain ⟨h0, hc, hw, _⟩ := print_inv inner hsi
    have h := wrap_frag (cs "Array(") inner.to_string (cs ")")
      (by decide) (fun _ => rfl) (by decide)
      h0 (fun d hd => hc d (by omega)) hw
      (by decide) (fun _ => rfl) (by decide)
    exact ⟨h.1, h.2.1, h.2.2, List.cons_ne_nil _ _⟩
  | nullable inner =>
    have hsi : printSafe inner = true := hs
    obtain ⟨h0, hc, hw, _⟩ := print_inv inner hsi
    have h := wrap_frag (cs "Nullable(") inner.to_string (cs ")")
      (by decide) (fun _ => rfl) (by decide)
      h0 (fun d hd => hc d (by omega)) hw
      (by decide) (fun _ => rfl) (by decide)
    exact ⟨h.1, h.2.1, h.2.2, List.cons_ne_nil _ _⟩
  | tuple ts =>
    have hsl : printSafeList ts = true := hs
    obtain ⟨h0, hc, hw⟩ := print_inv_list ts hsl
    have h := wrap_frag (cs "Tuple(") (printTypeList ts) (cs ")")
      (by decide) (fun _ => rfl) (by decide)
      h0 hc hw
      (by decide) (fun _ => rfl) (by decide)
    exact ⟨h.1, h.2.1, h.2.2, List.cons_ne_nil _ _⟩
  | map k v =>
    have hs' : (printSafe k && printSafe v) = true := hs
    rw [Bool.and_eq_true] at hs'
    obtain ⟨k0, kc, kw, _⟩ := print_inv k hs'.1
    obtain ⟨v0, vc, vw, _⟩ := print_inv v hs'.2
    have h := wrap_frag2 (cs "Map(") k.to_string (cs ",") v.to_string (cs ")")
      (by decide) (fun _ => rfl) (by decide)
      k0 (fun d hd => kc d (by omega)) kw
      (by decide) comma_piece (by decide)
      v0 (fun d hd => vc d (by omega)) vw
      (by decide) (fun _ => rfl) (by decide)
    exact ⟨h.1, h.2.1, h.2.2, List.cons_ne_nil _ _⟩
  | _ => exact ⟨by decide, fun _ _ => rfl, by decide, by decide⟩

/-- Print invariants for the comma-joined member list of a Tuple. -/
theorem print_inv_list (ts : List Type') (hs : printSafeList ts = true) :
    parenSum (printTypeList ts) = 0 ∧
    (∀ d : Int, 0 < d → noTopComma (printTypeList ts) d = true) ∧
    (printTypeList ts).all (fun c => !c.isWhitespace) = true := by
  cases ts with
  | nil => exact ⟨rfl, fun _ _ => rfl, rfl⟩
  | cons t rest =>
    have hs' : (printSafe t && printSafeList rest) = true := hs
    rw [Bool.and_eq_true] at hs'
    obtain ⟨h0, hc, hw, _⟩ := print_inv t hs'.1
    cases rest with
    | nil => exact ⟨h0, fun d hd => hc d (by omega), hw⟩
    | cons r rest' =>
      obtain ⟨l0, lc, lw⟩ := print_inv_list (r :: rest') hs'.2
      refine ⟨?_, ?_, ?_⟩
      · rw [show printTypeList (t :: r :: rest') =
          (t.to_string ++ cs ",") ++ printTypeList (r :: rest') from rfl,
          parenSum_append, parenSum_append, h0, l0,
          show parenSum (cs ",") = 0 from rfl]
        omega
      · intro d hd
        rw [show printTypeList (t :: r :: rest') =
          (t.to_string ++ cs ",") ++ printTypeList (r :: rest') from rfl]
        refine noTopComma_append_true (noTopComma_append_true (hc d (by omega)) ?_) ?_
        · rw [h0, show d + (0 : Int) = d from by ring]
          exact comma_piece d (by omega)
        · rw [parenSum_append, h0, show parenSum (cs ",") = 0 from rfl,
            show d + ((0 : Int) + 0) = d from by ring]
          exact lc d hd
      · rw [show printTypeList (t :: r :: rest') =
          (t.to_string ++ cs ",") ++ printTypeList (r :: rest') from rfl,
          List.all_append, List.all_append, hw, lw,
          show (cs ",").all (fun c => !c.isWhitespace) = true from rfl]
        rfl

end

/-- The argument splitter recovers the member strings of a printed
Tuple body. -/
theorem splitTopArgs_printList (ts : List Type') (hs : printSafeList ts = true) :
    splitTopArgs (printTypeList ts) 0 [] = ts.map Type'.to_string := by
  revert hs
  induction ts with
  | nil => intro _; rfl
  | cons t rest ih =>
    intro hs
    have hs' : (printSafe t && printSafeList rest) = true := hs
    rw [Bool.and_eq_true] at hs'
    obtain ⟨h0, hc, hw, hn⟩ := print_inv t hs'.1
    cases rest with
    | nil =>
      show splitTopArgs t.to_string 0 [] = [t.to_string]
      exact splitTopArgs_single _ (hc 0 (le_refl 0)) h0 hn (trim_eq_self_of_noWs hw)
    | cons r rest' =>
      rw [show printTypeList (t :: r :: rest') =
          t.to_string ++ (',' :: printTypeList (r :: rest')) from by
        rw [show printTypeList (t :: r :: rest') =
          (t.to_string ++ cs ",") ++ printTypeList (r :: rest') from rfl,
          List.append_assoc]
        rfl,
        splitTopArgs_sep _ _ (hc 0 (le_refl 0)) h0 (trim_eq_self_of_noWs hw),
        ih hs'.2]
      rfl

/-- A member string is no longer than the printed member list. -/
theorem to_string_length_mem (t : Type') (ts : List Type') (h : t ∈ ts) :
    t.to_string.length ≤ (printTypeList ts).length := by
  induction ts with
  | nil => cases h
  | cons x rest ih =>
    cases rest with
    | nil =>
      rw [List.mem_singleton] at h
      subst h
      exact le_refl _
    | cons r rest' =>
      have hlen : (printTypeList (x :: r :: rest')).length =
          x.to_string.length + 1 + (printTypeList (r :: rest')).length := by
        rw [show printTypeList (x :: r :: rest') =
          (x.to_string ++ cs ",") ++ printTypeList (r :: rest') from rfl,
          List.length_append, List.length_append]
        rfl
      rcases List.mem_cons.mp h with h | h
      · subst h
        omega
      · have := ih h
        omega

/-- Length of the wrapped print shape. -/
theorem wrap_length (A mid C : List Char) :
    ((A ++ mid) ++ C).length = A.length + mid.length + C.length := by
  rw [List.length_append, List.length_append]

/-- Fragment invariants of a single-quoted name. -/
theorem quoted_frag (name : List Char)
    (hp : parenSum name = 0) (hc : ∀ d : Int, noTopComma name d = true)
    (hw : name.all (fun c => !c.isWhitespace) = true) :
    parenSum ('\'' :: (name ++ cs "'")) = 0 ∧
    (∀ d : Int, noTopComma ('\'' :: (name ++ cs "'")) d = true) ∧
    ('\'' :: (name ++ cs "'")).all (fun c => !c.isWhitespace) = true := by
  refine ⟨?_, fun d => ?_, ?_⟩
  · rw [parenSum_cons, if_neg (by decide), if_neg (by decide), parenSum_append,
      hp, show parenSum (cs "'") = 0 from rfl]
    ring
  · rw [noTopComma_cons, if_neg (by decide), if_neg (by decide), if_neg (by decide)]
    exact noTopComma_append_true (hc d) (by exact rfl)
  · rw [List.all_cons, List.all_append, hw]
    rfl

/-- On a nonempty identifier and a parenthesized remainder, the parser
body runs parse_args and dispatches to the argument branch. -/
theorem fromStrCore_shape (recur : List Char → Except PError Type')
    (ident TAIL : List Char) (hid : ident.isEmpty = false) :
    fromStrCore recur ident ('(' :: TAIL) =
      match parseArgs ('(' :: TAIL) with
      | .error e => .error e
      | .ok args => fromStrArgs recur ident args := by
  unfold fromStrCore
  rw [hid, show (('(' :: TAIL) : List Char).isEmpty = false from rfl]
  rfl

/-- trim is the identity on a parenthesized remainder ending in a
closing paren. -/
theorem trim_shape (TAIL : List Char) (hlast : ('(' :: TAIL).getLast? = some ')') :
    trim ('(' :: TAIL) = '(' :: TAIL := by
  refine trim_eq_self (fun c hc => ?_) (fun c hc => ?_)
  · injection hc with h
    subst h
    decide
  · rw [hlast] at hc
    injection hc with h
    subst h
    decide

/-- parse_args on a parenthesized remainder: the body is everything but
the final close paren. -/
theorem parseArgs_shape (TAIL body : List Char)
    (hlast : ('(' :: TAIL).getLast? = some ')')
    (hdrop : TAIL.dropLast = body)
    (hnw : body.all (fun c => !c.isWhitespace) = true)
    (hps : parenSum body = 0) :
    parseArgs ('(' :: TAIL) = .ok (splitTopArgs body 0 []) := by
  unfold parseArgs
  rw [hlast, show ('(' :: TAIL).head? = some '(' from rfl, if_neg (by decide)]
  show (if parenSum (trim ((('(' :: TAIL).drop 1).dropLast)) != 0 then
      (.error .mismatchedParens : Except PError (List (List Char)))
    else .ok (splitTopArgs (trim ((('(' :: TAIL).drop 1).dropLast)) 0 [])) = _
  rw [show ('(' :: TAIL).drop 1 = TAIL from rfl, hdrop, trim_eq_self_of_noWs hnw, hps]
  rfl

/-- Claim C10: for every type that validates at depth 0 and contains no
Enum8 or Enum16 constructor, the default value passes validate_value;
and the particular defaults are: Nullable defaults to Null, Array and
Map to empty containers, FixedString to the empty string, and
LowCardinality(T) to the default of T. -/
theorem claim10_default_value_validates :
    (∀ T : Type', (Type'.nullable T).default_value = .null) ∧
    (∀ T : Type', (Type'.array T).default_value = .array []) ∧
    (∀ K V : Type', (Type'.map K V).default_value = .map [] []) ∧
    (∀ n : Nat, (Type'.fixedString n).default_value = .string []) ∧
    (∀ T : Type', (Type'.lowCardinality T).default_value = T.default_value) ∧
    (∀ t : Type', t.validate 0 = .ok () → noEnum t = true →
      t.validate_value t.default_value = .ok ()) := by
  refine ⟨fun T => rfl, fun T => rfl, fun K V => rfl, fun n => rfl, fun T => rfl,
    fun t hv he => ?_⟩
  rw [show t.validate_value t.default_value =
    (t.validate 0 >>= fun _ =>
      if !t.inner_validate_value t.default_value then .error .couldNotAssign
      else .ok ()) from rfl, except_bind_ok]
  refine ⟨hv, ?_⟩
  rw [default_value_validates t he]
  rfl

/-- Witness for C10 at a concrete type mixing Nullable, LowCardinality,
Map, Array and Tuple. -/
theorem claim10_default_value_validates_witness :
    Type'.validate (.tuple [.nullable .string, .lowCardinality (.nullable .uint8),
      .map .string (.array .uint8)]) 0 = .ok () ∧
    noEnum (.tuple [.nullable .string, .lowCardinality (.nullable .uint8),
      .map .string (.array .uint8)]) = true ∧
    Type'.validate_value
      (.tuple [.nullable .string, .lowCardinality (.nullable .uint8),
        .map .string (.array .uint8)])
      (Type'.default_value (.tuple [.nullable .string,
        .lowCardinality (.nullable .uint8),
        .map .string (.array .uint8)])) = .ok () :=
  ⟨rfl, rfl,
   claim10_default_value_validates.2.2.2.2.2
     (.tuple [.nullable .string, .lowCardinality (.nullable .uint8),
       .map .string (.array .uint8)]) rfl rfl⟩

end Klickhouse

namespace Klickhouse

mutual

theorem from_str_to_string_fuel (t : Type') (fuel : Nat) (hs : printSafe t = true)
    (hf : t.to_string.length < fuel) : fromStrF fuel t.to_string = .ok t := by
  cases t with
  | decimal32 s =>
    obtain ⟨hp, hcsc⟩ := natToChars_plain s
    cases fuel with
    | zero => exact absurd hf (by omega)
    | succ m =>
      have hlast : (('(' :: (natToChars s ++ cs ")")) : List Char).getLast? = some ')' := by
        rw [show (('(' :: (natToChars s ++ cs ")")) : List Char) =
            ['('] ++ (natToChars s ++ cs ")") from rfl,
          List.getLast?_append_of_ne_nil _
            (List.append_ne_nil_of_right_ne_nil _ (by decide)),
          List.getLast?_append_of_ne_nil _ (by decide)]
        rfl
      have hdrop : ((natToChars s ++ cs ")") : List Char).dropLast = natToChars s := by
        rw [List.dropLast_append_of_ne_nil _ (by decide),
          show ((cs ")") : List Char).dropLast = [] from rfl, List.append_nil]
      rw [fromStrF_succ,
        show (Type'.decimal32 s).to_string =
          'D' :: (cs "ecimal32" ++ ('(' :: (natToChars s ++ cs ")"))) from rfl,
        eatIdentifier_print 'D' (cs "ecimal32") ('(' :: (natToChars s ++ cs ")"))
          (by decide) (by decide) (Or.inr ⟨'(', _, rfl, by decide⟩)]
      show fromStrCore (fromStrF m) ('D' :: cs "ecimal32")
        (trim ('(' :: (natToChars s ++ cs ")"))) = _
      rw [trim_shape _ hlast,
        fromStrCore_shape (fromStrF m) ('D' :: cs "ecimal32") _ rfl,
        parseArgs_shape _ _ hlast hdrop (natToChars_noWs s) hp,
        splitTopArgs_single _ (hcsc 0) hp (natToChars_ne_nil s)
          (trim_eq_self_of_noWs (natToChars_noWs s))]
      show fromStrArgs (fromStrF m) ('D' :: cs "ecimal32") [natToChars s] = _
      rw [show fromStrArgs (fromStrF m) ('D' :: cs "ecimal32") [natToChars s] =
          (parseUsize (natToChars s) >>= fun v =>
            (.ok (.decimal32 v) : Except PError Type')) from rfl,
        parseUsize_natToChars s (of_decide_eq_true hs)]
      rfl
  | array inner =>
    have hsi : printSafe inner = true := hs
    obtain ⟨h0, hc, hw, hn⟩ := print_inv inner hsi
    cases fuel with
    | zero => exact absurd hf (by omega)
    | succ m =>
      have hlen : inner.to_string.length < m := by
        have he : (Type'.array inner).to_string.length = 6 + inner.to_string.length + 1 := by
          rw [show (Type'.array inner).to_string =
            (cs "Array(" ++ inner.to_string) ++ cs ")" from rfl,
            List.length_append, List.length_append]
          rfl
        omega
      have hlast : (('(' :: (inner.to_string ++ cs ")")) : List Char).getLast? = some ')' := by
        rw [show (('(' :: (inner.to_string ++ cs ")")) : List Char) =
            ['('] ++ (inner.to_string ++ cs ")") from rfl,
          List.getLast?_append_of_ne_nil _
            (List.append_ne_nil_of_right_ne_nil _ (by decide)),
          List.getLast?_append_of_ne_nil _ (by decide)]
        rfl
      have hdrop : ((inner.to_string ++ cs ")") : List Char).dropLast = inner.to_string := by
        rw [List.dropLast_append_of_ne_nil _ (by decide),
          show ((cs ")") : List Char).dropLast = [] from rfl, List.append_nil]
      rw [fromStrF_succ,
        show (Type'.array inner).to_string =
          'A' :: (cs "rray" ++ ('(' :: (inner.to_string ++ cs ")"))) from rfl,
        eatIdentifier_print 'A' (cs "rray") ('(' :: (inner.to_string ++ cs ")"))
          (by decide) (by decide) (Or.inr ⟨'(', _, rfl, by decide⟩)]
      show fromStrCore (fromStrF m) ('A' :: cs "rray")
        (trim ('(' :: (inner.to_string ++ cs ")"))) = _
      rw [trim_shape _ hlast,
        fromStrCore_shape (fromStrF m) ('A' :: cs "rray") _ rfl,
        parseArgs_shape _ _ hlast hdrop hw h0,
        splitTopArgs_single _ (hc 0 (le_refl 0)) h0 hn (trim_eq_self_of_noWs hw)]
      show fromStrArgs (fromStrF m) ('A' :: cs "rray") [inner.to_string] = _
      rw [show fromStrArgs (fromStrF m) ('A' :: cs "rray") [inner.to_string] =
          (fromStrF m inner.to_string >>= fun u =>
            (.ok (.array u) : Except PError Type')) from rfl,
        from_str_to_string_fuel inner m hsi hlen]
      rfl
  | enum8 entries => exact Bool.noConfusion hs
  | enum16 entries => exact Bool.noConfusion hs
  | decimal64 s =>
    obtain ⟨hp, hcsc⟩ := natToChars_plain s
    cases fuel with
    | zero => exact absurd hf (by omega)
    | succ m =>
      have hlast : (('(' :: (natToChars s ++ cs ")")) : List Char).getLast? = some ')' := by
        rw [show (('(' :: (natToChars s ++ cs ")")) : List Char) =
            ['('] ++ (natToChars s ++ cs ")") from rfl,
          List.getLast?_append_of_ne_nil _
            (List.append_ne_nil_of_right_ne_nil _ (by decide)),
          List.getLast?_append_of_ne_nil _ (by decide)]
        rfl
      have hdrop : ((natToChars s ++ cs ")") : List Char).dropLast = natToChars s := by
        rw [List.dropLast_append_of_ne_nil _ (by decide),
          show ((cs ")") : List Char).dropLast = [] from rfl, List.append_nil]
      rw [fromStrF_succ,
        show (Type'.decimal64 s).to_string =
          'D' :: (cs "ecimal64" ++ ('(' :: (natToChars s ++ cs ")"))) from rfl,
        eatIdentifier_print 'D' (cs "ecimal64") ('(' :: (natToChars s ++ cs ")"))
          (by decide) (by decide) (Or.inr ⟨'(', _, rfl, by decide⟩)]
      show fromStrCore (fromStrF m) ('D' :: cs "ecimal64")
        (trim ('(' :: (natToChars s ++ cs ")"))) = _
      rw [trim_shape _ hlast,
        fromStrCore_shape (fromStrF m) ('D' :: cs "ecimal64") _ rfl,
        parseArgs_shape _ _ hlast hdrop (natToChars_noWs s) hp,
        splitTopArgs_single _ (hcsc 0) hp (natToChars_ne_nil s)
          (trim_eq_self_of_noWs (natToChars_noWs s))]
      show fromStrArgs (fromStrF m) ('D' :: cs "ecimal64") [natToChars s] = _
      rw [show fromStrArgs (fromStrF m) ('D' :: cs "ecimal64") [natToChars s] =
          (parseUsize (natToChars s) >>= fun w =>
            (.ok (.decimal64 w) : Except PError Type')) from rfl,
        parseUsize_natToChars s (of_decide_eq_true hs)]
      rfl
  | decimal128 s =>
    obtain ⟨hp, hcsc⟩ := natToChars_plain s
    cases fuel with
    | zero => exact absurd hf (by omega)
    | succ m =>
      have hlast : (('(' :: (natToChars s ++ cs ")")) : List Char).getLast? = some ')' := by
        rw [show (('(' :: (natToChars s ++ cs ")")) : List Char) =
            ['('] ++ (natToChars s ++ cs ")") from rfl,
          List.getLast?_append_of_ne_nil _
            (List.append_ne_nil_of_right_ne_nil _ (by decide)),
          List.getLast?_append_of_ne_nil _ (by decide)]
        rfl
      have hdrop : ((natToChars s ++ cs ")") : List Char).dropLast = natToChars s := by
        rw [List.dropLast_append_of_ne_nil _ (by decide),
          show ((cs ")") : List Char).dropLast = [] from rfl, List.append_nil]
      rw [fromStrF_succ,
        show (Type'.decimal128 s).to_string =
          'D' :: (cs "ecimal128" ++ ('(' :: (natToChars s ++ cs ")"))) from rfl,
        eatIdentifier_print 'D' (cs "ecimal128") ('(' :: (natToChars s ++ cs ")"))
          (by decide) (by decide) (Or.inr ⟨'(', _, rfl, by decide⟩)]
      show fromStrCore (fromStrF m) ('D' :: cs "ecimal128")
        (trim ('(' :: (natToChars s ++ cs ")"))) = _
      rw [trim_shape _ hlast,
        fromStrCore_shape (fromStrF m) ('D' :: cs "ecimal128") _ rfl,
        parseArgs_shape _ _ hlast hdrop (natToChars_noWs s) hp,
        splitTopArgs_single _ (hcsc 0) hp (natToChars_ne_nil s)
          (trim_eq_self_of_noWs (natToChars_noWs s))]
      show fromStrArgs (fromStrF m) ('D' :: cs "ecimal128") [natToChars s] = _
      rw [show fromStrArgs (fromStrF m) ('D' :: cs "ecimal128") [natToChars s] =
          (parseUsize (natToChars s) >>= fun w =>
            (.ok (.decimal128 w) : Except PError Type')) from rfl,
        parseUsize_natToChars s (of_decide_eq_true hs)]
      rfl
  | decimal256 s =>
    obtain ⟨hp, hcsc⟩ := natToChars_plain s
    cases fuel with
    | zero => exact absurd hf (by omega)
    | succ m =>
      have hlast : (('(' :: (natToChars s ++ cs ")")) : List Char).getLast? = some ')' := by
        rw [show (('(' :: (natToChars s ++ cs ")")) : List Char) =
            ['('] ++ (natToChars s ++ cs ")") from rfl,
          List.getLast?_append_of_ne_nil _
            (List.append_ne_nil_of_right_ne_nil _ (by decide)),
          List.getLast?_append_of_ne_nil _ (by decide)]
        rfl
      have hdrop : ((natToChars s ++ cs ")") : List Char).dropLast = natToChars s := by
        rw [List.dropLast_append_of_ne_nil _ (by decide),
          show ((cs ")") : List Char).dropLast = [] from rfl, List.append_nil]
      rw [fromStrF_succ,
        show (Type'.decimal256 s).to_string =
          'D' :: (cs "ecimal256" ++ ('(' :: (natToChars s ++ cs ")"))) from rfl,
        eatIdentifier_print 'D' (cs "ecimal256") ('(' :: (natToChars s ++ cs ")"))
          (by decide) (by decide) (Or.inr ⟨'(', _, rfl, by decide⟩)]
      show fromStrCore (fromStrF m) ('D' :: cs "ecimal256")
        (trim ('(' :: (natToChars s ++ cs ")"))) = _
      rw [trim_shape _ hlast,
        fromStrCore_shape (fromStrF m) ('D' :: cs "ecimal256") _ rfl,
        parseArgs_shape _ _ hlast hdrop (natToChars_noWs s) hp,
        splitTopArgs_single _ (hcsc 0) hp (natToChars_ne_nil s)
          (trim_eq_self_of_noWs (natToChars_noWs s))]
      show fromStrArgs (fromStrF m) ('D' :: cs "ecimal256") [natToChars s] = _
      rw [show fromStrArgs (fromStrF m) ('D' :: cs "ecimal256") [natToChars s] =
          (parseUsize (natToChars s) >>= fun w =>
            (.ok (.decimal256 w) : Except PError Type')) from rfl,
        parseUsize_natToChars s (of_decide_eq_true hs)]
      rfl
  | fixedString n =>
    obtain ⟨hp, hcsc⟩ := natToChars_plain n
    cases fuel with
    | zero => exact absurd hf (by omega)
    | succ m =>
      have hlast : (('(' :: (natToChars n ++ cs ")")) : List Char).getLast? = some ')' := by
        rw [show (('(' :: (natToChars n ++ cs ")")) : List Char) =
            ['('] ++ (natToChars n ++ cs ")") from rfl,
          List.getLast?_append_of_ne_nil _
            (List.append_ne_nil_of_right_ne_nil _ (by decide)),
          List.getLast?_append_of_ne_nil _ (by decide)]
        rfl
      have hdrop : ((natToChars n ++ cs ")") : List Char).dropLast = natToChars n := by
        rw [List.dropLast_append_of_ne_nil _ (by decide),
          show ((cs ")") : List Char).dropLast = [] from rfl, List.append_nil]
      rw [fromStrF_succ,
        show (Type'.fixedString n).to_string =
          'F' :: (cs "ixedString" ++ ('(' :: (natToChars n ++ cs ")"))) from rfl,
        eatIdentifier_print 'F' (cs "ixedString") ('(' :: (natToChars n ++ cs ")"))
          (by decide) (by decide) (Or.inr ⟨'(', _, rfl, by decide⟩)]
      show fromStrCore (fromStrF m) ('F' :: cs "ixedString")
        (trim ('(' :: (natToChars n ++ cs ")"))) = _
      rw [trim_shape _ hlast,
        fromStrCore_shape (fromStrF m) ('F' :: cs "ixedString") _ rfl,
        parseArgs_shape _ _ hlast hdrop (natToChars_noWs n) hp,
        splitTopArgs_single _ (hcsc 0) hp (natToChars_ne_nil n)
          (trim_eq_self_of_noWs (natToChars_noWs n))]
      show fromStrArgs (fromStrF m) ('F' :: cs "ixedString") [natToChars n] = _
      rw [show fromStrArgs (fromStrF m) ('F' :: cs "ixedString") [natToChars n] =
          (parseUsize (natToChars n) >>= fun w =>
            (.ok (.fixedString w) : Except PError Type')) from rfl,
        parseUsize_natToChars n (of_decide_eq_true hs)]
      rfl
  | dateTime tz =>
    have hg : tzGood tz = true := hs
    obtain ⟨hqp, hqc, hqw⟩ := quoted_frag tz.name (tzName_plain tz hg).1
      (tzName_plain tz hg).2 (tzName_noWs tz hg)
    cases fuel with
    | zero => exact absurd hf (by omega)
    | succ m =>
      have hlast : (('(' :: ('\'' :: (tz.name ++ cs "')"))) : List Char).getLast? = some ')' := by
        rw [show (('(' :: ('\'' :: (tz.name ++ cs "')"))) : List Char) =
            ['(', '\''] ++ (tz.name ++ cs "')") from rfl,
          List.getLast?_append_of_ne_nil _
            (List.append_ne_nil_of_right_ne_nil _ (by decide)),
          List.getLast?_append_of_ne_nil _ (by decide)]
        rfl
      have hdrop : (('\'' :: (tz.name ++ cs "')")) : List Char).dropLast
          = '\'' :: (tz.name ++ cs "'") := by
        rw [show (('\'' :: (tz.name ++ cs "')")) : List Char) =
            ['\''] ++ (tz.name ++ cs "')") from rfl,
          List.dropLast_append_of_ne_nil _
            (List.append_ne_nil_of_right_ne_nil _ (by decide)),
          List.dropLast_append_of_ne_nil _ (by decide)]
        rfl
      have hblast : (('\'' :: (tz.name ++ cs "'")) : List Char).getLast? = some '\'' := by
        rw [show (('\'' :: (tz.name ++ cs "'")) : List Char) =
            ['\''] ++ (tz.name ++ cs "'") from rfl,
          List.getLast?_append_of_ne_nil _
            (List.append_ne_nil_of_right_ne_nil _ (by decide)),
          List.getLast?_append_of_ne_nil _ (by decide)]
        rfl
      rw [fromStrF_succ,
        show (Type'.dateTime tz).to_string =
          'D' :: (cs "ateTime" ++ ('(' :: ('\'' :: (tz.name ++ cs "')")))) from rfl,
        eatIdentifier_print 'D' (cs "ateTime") ('(' :: ('\'' :: (tz.name ++ cs "')")))
          (by decide) (by decide) (Or.inr ⟨'(', _, rfl, by decide⟩)]
      show fromStrCore (fromStrF m) ('D' :: cs "ateTime")
        (trim ('(' :: ('\'' :: (tz.name ++ cs "')")))) = _
      rw [trim_shape _ hlast,
        fromStrCore_shape (fromStrF m) ('D' :: cs "ateTime") _ rfl,
        parseArgs_shape _ _ hlast hdrop hqw hqp,
        splitTopArgs_single _ (hqc 0) hqp (List.cons_ne_nil _ _)
          (trim_eq_self_of_noWs hqw)]
      show fromStrArgs (fromStrF m) ('D' :: cs "ateTime") ['\'' :: (tz.name ++ cs "'")] = _
      rw [show fromStrArgs (fromStrF m) ('D' :: cs "ateTime") ['\'' :: (tz.name ++ cs "'")] =
          (if !((('\'' :: (tz.name ++ cs "'")) : List Char).head? == some '\'') ||
              !((('\'' :: (tz.name ++ cs "'")) : List Char).getLast? == some '\'') then
            (.error (.badTimezone "DateTime") : Except PError Type')
          else do
            let tz2 ← tzFromStr (((('\'' :: (tz.name ++ cs "'")) : List Char).drop 1).dropLast)
            (.ok (.dateTime tz2) : Except PError Type')) from rfl,
        hblast, if_neg (fun hco => Bool.noConfusion hco)]
      show (tzFromStr (((('\'' :: (tz.name ++ cs "'")) : List Char).drop 1).dropLast) >>=
        fun tz2 => (.ok (.dateTime tz2) : Except PError Type')) = _
      rw [show ((('\'' :: (tz.name ++ cs "'")) : List Char).drop 1) = tz.name ++ ['\''] from rfl,
        List.dropLast_concat]
      rfl
  | dateTime64 p tz =>
    have hs2 : (decide (p < 2 ^ 64) && tzGood tz) = true := hs
    rw [Bool.and_eq_true] at hs2
    have hg := hs2.2
    obtain ⟨hdp, hdc⟩ := natToChars_plain p
    obtain ⟨hqp, hqc, hqw⟩ := quoted_frag tz.name (tzName_plain tz hg).1
      (tzName_plain tz hg).2 (tzName_noWs tz hg)
    cases fuel with
    | zero => exact absurd hf (by omega)
    | succ m =>
      have h3ne : ((tz.name ++ cs "')") : List Char) ≠ [] :=
        List.append_ne_nil_of_right_ne_nil _ (by decide)
      have h2ne : ((cs ",'" ++ (tz.name ++ cs "')")) : List Char) ≠ [] :=
        List.append_ne_nil_of_right_ne_nil _ h3ne
      have hlast : (('(' :: (natToChars p ++ (cs ",'" ++ (tz.name ++ cs "')")))) : List Char).getLast?
          = some ')' := by
        rw [show (('(' :: (natToChars p ++ (cs ",'" ++ (tz.name ++ cs "')")))) : List Char) =
            ['('] ++ (natToChars p ++ (cs ",'" ++ (tz.name ++ cs "')"))) from rfl,
          List.getLast?_append_of_ne_nil _
            (List.append_ne_nil_of_right_ne_nil _ h2ne),
          List.getLast?_append_of_ne_nil _ h2ne,
          List.getLast?_append_of_ne_nil _ h3ne,
          List.getLast?_append_of_ne_nil _ (by decide)]
        rfl
      have hdrop : ((natToChars p ++ (cs ",'" ++ (tz.name ++ cs "')"))) : List Char).dropLast
          = natToChars p ++ (cs ",'" ++ (tz.name ++ cs "'")) := by
        rw [List.dropLast_append_of_ne_nil _ h2ne,
          List.dropLast_append_of_ne_nil _ h3ne,
          List.dropLast_append_of_ne_nil _ (by decide)]
        rfl
      have hbw : ((natToChars p ++ (cs ",'" ++ (tz.name ++ cs "'"))) : List Char).all
          (fun c => !c.isWhitespace) = true := by
        rw [List.all_append, List.all_append, List.all_append, natToChars_noWs p,
          tzName_noWs tz hg]
        rfl
      have hbp : parenSum (natToChars p ++ (cs ",'" ++ (tz.name ++ cs "'"))) = 0 := by
        rw [parenSum_append, parenSum_append, parenSum_append, hdp,
          (tzName_plain tz hg).1]
        decide
      have hblast : (('\'' :: (tz.name ++ cs "'")) : List Char).getLast? = some '\'' := by
        rw [show (('\'' :: (tz.name ++ cs "'")) : List Char) =
            ['\''] ++ (tz.name ++ cs "'") from rfl,
          List.getLast?_append_of_ne_nil _
            (List.append_ne_nil_of_right_ne_nil _ (by decide)),
          List.getLast?_append_of_ne_nil _ (by decide)]
        rfl
      have henorm : (Type'.dateTime64 p tz).to_string =
          cs "DateTime64(" ++ (natToChars p ++ (cs ",'" ++ (tz.name ++ cs "')"))) := by
        simp only [show (Type'.dateTime64 p tz).to_string =
          (((cs "DateTime64(" ++ natToChars p) ++ cs ",'") ++ tz.name) ++ cs "')" from rfl,
          List.append_assoc]
      rw [fromStrF_succ, henorm,
        show cs "DateTime64(" ++ (natToChars p ++ (cs ",'" ++ (tz.name ++ cs "')"))) =
          'D' :: (cs "ateTime64" ++ ('(' :: (natToChars p ++ (cs ",'" ++ (tz.name ++ cs "')"))))) from rfl,
        eatIdentifier_print 'D' (cs "ateTime64")
          ('(' :: (natToChars p ++ (cs ",'" ++ (tz.name ++ cs "')"))))
          (by decide) (by decide) (Or.inr ⟨'(', _, rfl, by decide⟩)]
      show fromStrCore (fromStrF m) ('D' :: cs "ateTime64")
        (trim ('(' :: (natToChars p ++ (cs ",'" ++ (tz.name ++ cs "')"))))) = _
      rw [trim_shape _ hlast,
        fromStrCore_shape (fromStrF m) ('D' :: cs "ateTime64") _ rfl,
        parseArgs_shape _ _ hlast hdrop hbw hbp,
        show splitTopArgs (natToChars p ++ (cs ",'" ++ (tz.name ++ cs "'"))) 0 []
          = splitTopArgs (natToChars p ++ (',' :: ('\'' :: (tz.name ++ cs "'")))) 0 [] from rfl,
        splitTopArgs_sep _ _ (hdc 0) hdp (trim_eq_self_of_noWs (natToChars_noWs p)),
        splitTopArgs_single _ (hqc 0) hqp (List.cons_ne_nil _ _)
          (trim_eq_self_of_noWs hqw)]
      show fromStrArgs (fromStrF m) ('D' :: cs "ateTime64")
        [natToChars p, '\'' :: (tz.name ++ cs "'")] = _
      rw [show fromStrArgs (fromStrF m) ('D' :: cs "ateTime64")
            [natToChars p, '\'' :: (tz.name ++ cs "'")] =
          (if !((('\'' :: (tz.name ++ cs "'")) : List Char).head? == some '\'') ||
              !((('\'' :: (tz.name ++ cs "'")) : List Char).getLast? == some '\'') then
            (.error (.badTimezone "DateTime64") : Except PError Type')
          else do
            let p2 ← parseUsize (natToChars p)
            let tz2 ← tzFromStr (((('\'' :: (tz.name ++ cs "'")) : List Char).drop 1).dropLast)
            (.ok (.dateTime64 p2 tz2) : Except PError Type')) from rfl,
        hblast, if_neg (fun hco => Bool.noConfusion hco)]
      show (parseUsize (natToChars p) >>= fun p2 =>
        tzFromStr (((('\'' :: (tz.name ++ cs "'")) : List Char).drop 1).dropLast) >>=
          fun tz2 => (.ok (.dateTime64 p2 tz2) : Except PError Type')) = _
      rw [parseUsize_natToChars p (of_decide_eq_true hs2.1)]
      show (tzFromStr (((('\'' :: (tz.name ++ cs "'")) : List Char).drop 1).dropLast) >>=
        fun tz2 => (.ok (.dateTime64 p tz2) : Except PError Type')) = _
      rw [show ((('\'' :: (tz.name ++ cs "'")) : List Char).drop 1) = tz.name ++ ['\''] from rfl,
        List.dropLast_concat]
      rfl
  | lowCardinality inner =>
    have hsi : printSafe inner = true := hs
    obtain ⟨h0, hc, hw, hn⟩ := print_inv inner hsi
    cases fuel with
    | zero => exact absurd hf (by omega)
    | succ m =>
      have hlen : inner.to_string.length < m := by
        have he : (Type'.lowCardinality inner).to_string.length
            = 15 + inner.to_string.length + 1 := by
          rw [show (Type'.lowCardinality inner).to_string =
            (cs "LowCardinality(" ++ inner.to_string) ++ cs ")" from rfl,
            List.length_append, List.length_append]
          rfl
        omega
      have hlast : (('(' :: (inner.to_string ++ cs ")")) : List Char).getLast? = some ')' := by
        rw [show (('(' :: (inner.to_string ++ cs ")")) : List Char) =
            ['('] ++ (inner.to_string ++ cs ")") from rfl,
          List.getLast?_append_of_ne_nil _
            (List.append_ne_nil_of_right_ne_nil _ (by decide)),
          List.getLast?_append_of_ne_nil _ (by decide)]
        rfl
      have hdrop : ((inner.to_string ++ cs ")") : List Char).dropLast = inner.to_string := by
        rw [List.dropLast_append_of_ne_nil _ (by decide),
          show ((cs ")") : List Char).dropLast = [] from rfl, List.append_nil]
      rw [fromStrF_succ,
        show (Type'.lowCardinality inner).to_string =
          'L' :: (cs "owCardinality" ++ ('(' :: (inner.to_string ++ cs ")"))) from rfl,
        eatIdentifier_print 'L' (cs "owCardinality") ('(' :: (inner.to_string ++ cs ")"))
          (by decide) (by decide) (Or.inr ⟨'(', _, rfl, by decide⟩)]
      show fromStrCore (fromStrF m) ('L' :: cs "owCardinality")
        (trim ('(' :: (inner.to_string ++ cs ")"))) = _
      rw [trim_shape _ hlast,
        fromStrCore_shape (fromStrF m) ('L' :: cs "owCardinality") _ rfl,
        parseArgs_shape _ _ hlast hdrop hw h0,
        splitTopArgs_single _ (hc 0 (le_refl 0)) h0 hn (trim_eq_self_of_noWs hw)]
      show fromStrArgs (fromStrF m) ('L' :: cs "owCardinality") [inner.to_string] = _
      rw [show fromStrArgs (fromStrF m) ('L' :: cs "owCardinality") [inner.to_string] =
          (fromStrF m inner.to_string >>= fun u =>
            (.ok (.lowCardinality u) : Except PError Type')) from rfl,
        from_str_to_string_fuel inner m hsi hlen]
      rfl
  | nullable inner =>
    have hsi : printSafe inner = true := hs
    obtain ⟨h0, hc, hw, hn⟩ := print_inv inner hsi
    cases fuel with
    | zero => exact absurd hf (by omega)
    | succ m =>
      have hlen : inner.to_string.length < m := by
        have he : (Type'.nullable inner).to_string.length
            = 9 + inner.to_string.length + 1 := by
          rw [show (Type'.nullable inner).to_string =
            (cs "Nullable(" ++ inner.to_string) ++ cs ")" from rfl,
            List.length_append, List.length_append]
          rfl
        omega
      have hlast : (('(' :: (inner.to_string ++ cs ")")) : List Char).getLast? = some ')' := by
        rw [show (('(' :: (inner.to_string ++ cs ")")) : List Char) =
            ['('] ++ (inner.to_string ++ cs ")") from rfl,
          List.getLast?_append_of_ne_nil _
            (List.append_ne_nil_of_right_ne_nil _ (by decide)),
          List.getLast?_append_of_ne_nil _ (by decide)]
        rfl
      have hdrop : ((inner.to_string ++ cs ")") : List Char).dropLast = inner.to_string := by
        rw [List.dropLast_append_of_ne_nil _ (by decide),
          show ((cs ")") : List Char).dropLast = [] from rfl, List.append_nil]
      rw [fromStrF_succ,
        show (Type'.nullable inner).to_string =
          'N' :: (cs "ullable" ++ ('(' :: (inner.to_string ++ cs ")"))) from rfl,
        eatIdentifier_print 'N' (cs "ullable") ('(' :: (inner.to_string ++ cs ")"))
          (by decide) (by decide) (Or.inr ⟨'(', _, rfl, by decide⟩)]
      show fromStrCore (fromStrF m) ('N' :: cs "ullable")
        (trim ('(' :: (inner.to_string ++ cs ")"))) = _
      rw [trim_shape _ hlast,
        fromStrCore_shape (fromStrF m) ('N' :: cs "ullable") _ rfl,
        parseArgs_shape _ _ hlast hdrop hw h0,
        splitTopArgs_single _ (hc 0 (le_refl 0)) h0 hn (trim_eq_self_of_noWs hw)]
      show fromStrArgs (fromStrF m) ('N' :: cs "ullable") [inner.to_string] = _
      rw [show fromStrArgs (fromStrF m) ('N' :: cs "ullable") [inner.to_string] =
          (fromStrF m inner.to_string >>= fun u =>
            (.ok (.nullable u) : Except PError Type')) from rfl,
        from_str_to_string_fuel inner m hsi hlen]
      rfl
  | tuple ts =>
    have hsl : printSafeList ts = true := hs
    obtain ⟨h0, hc, hw⟩ := print_inv_list ts hsl
    cases fuel with
    | zero => exact absurd hf (by omega)
    | succ m =>
      have he : (Type'.tuple ts).to_string.length = 6 + (printTypeList ts).length + 1 := by
        rw [show (Type'.tuple ts).to_string =
          (cs "Tuple(" ++ printTypeList ts) ++ cs ")" from rfl,
          List.length_append, List.length_append]
        rfl
      have hmem : ∀ u ∈ ts, u.to_string.length < m := by
        intro u hu
        have := to_string_length_mem u ts hu
        omega
      have hlast : (('(' :: (printTypeList ts ++ cs ")")) : List Char).getLast? = some ')' := by
        rw [show (('(' :: (printTypeList ts ++ cs ")")) : List Char) =
            ['('] ++ (printTypeList ts ++ cs ")") from rfl,
          List.getLast?_append_of_ne_nil _
            (List.append_ne_nil_of_right_ne_nil _ (by decide)),
          List.getLast?_append_of_ne_nil _ (by decide)]
        rfl
      have hdrop : ((printTypeList ts ++ cs ")") : List Char).dropLast = printTypeList ts := by
        rw [List.dropLast_append_of_ne_nil _ (by decide),
          show ((cs ")") : List Char).dropLast = [] from rfl, List.append_nil]
      rw [fromStrF_succ,
        show (Type'.tuple ts).to_string =
          'T' :: (cs "uple" ++ ('(' :: (printTypeList ts ++ cs ")"))) from rfl,
        eatIdentifier_print 'T' (cs "uple") ('(' :: (printTypeList ts ++ cs ")"))
          (by decide) (by decide) (Or.inr ⟨'(', _, rfl, by decide⟩)]
      show fromStrCore (fromStrF m) ('T' :: cs "uple")
        (trim ('(' :: (printTypeList ts ++ cs ")"))) = _
      rw [trim_shape _ hlast,
        fromStrCore_shape (fromStrF m) ('T' :: cs "uple") _ rfl,
        parseArgs_shape _ _ hlast hdrop hw h0,
        splitTopArgs_printList ts hsl]
      show fromStrArgs (fromStrF m) ('T' :: cs "uple") (ts.map Type'.to_string) = _
      rw [show fromStrArgs (fromStrF m) ('T' :: cs "uple") (ts.map Type'.to_string) =
          (fromStrList (fromStrF m) (ts.map Type'.to_string) >>= fun xs =>
            (.ok (.tuple xs) : Except PError Type')) from rfl,
        fromStrList_to_string_fuel ts m hsl hmem]
      rfl
  | map k v =>
    have hs2 : (printSafe k && printSafe v) = true := hs
    rw [Bool.and_eq_true] at hs2
    obtain ⟨k0, kc, kw, kn⟩ := print_inv k hs2.1
    obtain ⟨v0, vc, vw, vn⟩ := print_inv v hs2.2
    cases fuel with
    | zero => exact absurd hf (by omega)
    | succ m =>
      have he : (Type'.map k v).to_string.length
          = 4 + k.to_string.length + 1 + v.to_string.length + 1 := by
        rw [show (Type'.map k v).to_string =
          (((cs "Map(" ++ k.to_string) ++ cs ",") ++ v.to_string) ++ cs ")" from rfl,
          List.length_append, List.length_append, List.length_append, List.length_append]
        rfl
      have hlenk : k.to_string.length < m := by omega
      have hlenv : v.to_string.length < m := by omega
      have h3ne : ((v.to_string ++ cs ")") : List Char) ≠ [] :=
        List.append_ne_nil_of_right_ne_nil _ (by decide)
      have h2ne : ((cs "," ++ (v.to_string ++ cs ")")) : List Char) ≠ [] :=
        List.append_ne_nil_of_right_ne_nil _ h3ne
      have hlast : (('(' :: (k.to_string ++ (cs "," ++ (v.to_string ++ cs ")")))) : List Char).getLast?
          = some ')' := by
        rw [show (('(' :: (k.to_string ++ (cs "," ++ (v.to_string ++ cs ")")))) : List Char) =
            ['('] ++ (k.to_string ++ (cs "," ++ (v.to_string ++ cs ")"))) from rfl,
          List.getLast?_append_of_ne_nil _
            (List.append_ne_nil_of_right_ne_nil _ h2ne),
          List.getLast?_append_of_ne_nil _ h2ne,
          List.getLast?_append_of_ne_nil _ h3ne,
          List.getLast?_append_of_ne_nil _ (by decide)]
        rfl
      have hdrop : ((k.to_string ++ (cs "," ++ (v.to_string ++ cs ")"))) : List Char).dropLast
          = k.to_string ++ (cs "," ++ v.to_string) := by
        rw [List.dropLast_append_of_ne_nil _ h2ne,
          List.dropLast_append_of_ne_nil _ h3ne,
          List.dropLast_append_of_ne_nil _ (by decide),
          show ((cs ")") : List Char).dropLast = [] from rfl, List.append_nil]
      have hbw : ((k.to_string ++ (cs "," ++ v.to_string)) : List Char).all
          (fun c => !c.isWhitespace) = true := by
        rw [List.all_append, List.all_append, kw, vw]
        rfl
      have hbp : parenSum (k.to_string ++ (cs "," ++ v.to_string)) = 0 := by
        rw [parenSum_append, parenSum_append, k0, v0,
          show parenSum (cs ",") = 0 from rfl]
        decide
      have henorm : (Type'.map k v).to_string =
          cs "Map(" ++ (k.to_string ++ (cs "," ++ (v.to_string ++ cs ")"))) := by
        simp only [show (Type'.map k v).to_string =
          (((cs "Map(" ++ k.to_string) ++ cs ",") ++ v.to_string) ++ cs ")" from rfl,
          List.append_assoc]
      rw [fromStrF_succ, henorm,
        show cs "Map(" ++ (k.to_string ++ (cs "," ++ (v.to_string ++ cs ")"))) =
          'M' :: (cs "ap" ++ ('(' :: (k.to_string ++ (cs "," ++ (v.to_string ++ cs ")"))))) from rfl,
        eatIdentifier_print 'M' (cs "ap")
          ('(' :: (k.to_string ++ (cs "," ++ (v.to_string ++ cs ")"))))
          (by decide) (by decide) (Or.inr ⟨'(', _, rfl, by decide⟩)]
      show fromStrCore (fromStrF m) ('M' :: cs "ap")
        (trim ('(' :: (k.to_string ++ (cs "," ++ (v.to_string ++ cs ")"))))) = _
      rw [trim_shape _ hlast,
        fromStrCore_shape (fromStrF m) ('M' :: cs "ap") _ rfl,
        parseArgs_shape _ _ hlast hdrop hbw hbp,
        show splitTopArgs (k.to_string ++ (cs "," ++ v.to_string)) 0 []
          = splitTopArgs (k.to_string ++ (',' :: v.to_string)) 0 [] from rfl,
        splitTopArgs_sep _ _ (kc 0 (le_refl 0)) k0 (trim_eq_self_of_noWs kw),
        splitTopArgs_single _ (vc 0 (le_refl 0)) v0 vn (trim_eq_self_of_noWs vw)]
      show fromStrArgs (fromStrF m) ('M' :: cs "ap") [k.to_string, v.to_string] = _
      rw [show fromStrArgs (fromStrF m) ('M' :: cs "ap") [k.to_string, v.to_string] =
          (fromStrF m k.to_string >>= fun k2 =>
            fromStrF m v.to_string >>= fun v2 =>
            (.ok (.map k2 v2) : Except PError Type')) from rfl,
        from_str_to_string_fuel k m hs2.1 hlenk]
      show (fromStrF m v.to_string >>= fun v2 =>
        (.ok (.map k v2) : Except PError Type')) = _
      rw [from_str_to_string_fuel v m hs2.2 hlenv]
      rfl
  | _ =>
    cases fuel with
    | zero => exact absurd hf (by omega)
    | succ m => rfl

theorem fromStrList_to_string_fuel (ts : List Type') (fuel : Nat)
    (hs : printSafeList ts = true)
    (hf : ∀ u ∈ ts, u.to_string.length < fuel) :
    fromStrList (fromStrF fuel) (ts.map Type'.to_string) = .ok ts := by
  cases ts with
  | nil => rfl
  | cons t rest =>
    have hs' : (printSafe t && printSafeList rest) = true := hs
    rw [Bool.and_eq_true] at hs'
    obtain ⟨_, _, hw, _⟩ := print_inv t hs'.1
    rw [show fromStrList (fromStrF fuel) ((t :: rest).map Type'.to_string) =
        (fromStrF fuel (trim t.to_string) >>= fun x =>
          fromStrList (fromStrF fuel) (rest.map Type'.to_string) >>= fun xs =>
          (.ok (x :: xs) : Except PError (List Type'))) from rfl,
      trim_eq_self_of_noWs hw,
      from_str_to_string_fuel t fuel hs'.1 (hf t (by simp))]
    show (fromStrList (fromStrF fuel) (rest.map Type'.to_string) >>= fun xs =>
      (.ok (t :: xs) : Except PError (List Type'))) = _
    rw [fromStrList_to_string_fuel rest fuel hs'.2 (fun u hu => hf u (by simp [hu]))]
    rfl

end

/-- Claim C1: counterexample — the Enum8 type with the single item
("a", 1) passes validate, yet parsing its printed form lands in the
todo! panic of the Enum8 arm of FromStr, so the unrestricted round trip
claim fails on it. -/
theorem claim1_round_trip_enum_counterexample :
    Type'.validate (.enum8 [(cs "a", 1)]) 0 = .ok () ∧
    Type'.from_str (Type'.to_string (.enum8 [(cs "a", 1)])) = .error .panicTodo :=
  ⟨rfl, rfl⟩

/-- Claim C1 (amended): parse(print(t)) = t holds for every valid type
that contains no Enum8 or Enum16 constructor.  printSafe also records,
besides the Enum exclusion, two facts that hold automatically for every
Rust Type value: numeric parameters are usize values and timezone names
are well-formed chrono-tz names.  The counterexample theorem refutes
the original claim for Enum8/Enum16. -/
theorem claim1_round_trip_valid_types (t : Type')
    (_hv : t.validate 0 = .ok ()) (hs : printSafe t = true) :
    Type'.from_str t.to_string = .ok t :=
  from_str_to_string_fuel t (t.to_string.length + 1) hs (Nat.lt_succ_self _)

/-- Witness for C1 at the valid type Map(String, Array(Nullable(UInt8))). -/
theorem claim1_round_trip_valid_types_witness :
    Type'.validate (.map .string (.array (.nullable .uint8))) 0 = .ok () ∧
    printSafe (.map .string (.array (.nullable .uint8))) = true ∧
    Type'.from_str (Type'.to_string (.map .string (.array (.nullable .uint8)))) =
      .ok (.map .string (.array (.nullable .uint8))) :=
  ⟨rfl, rfl, claim1_round_trip_valid_types _ rfl rfl⟩

/-- Claim C3: parsing the textual form Decimal(p,s) narrows p to the
smallest backing width — Decimal32(s) for p ≤ 9, Decimal64(s) for
p ≤ 18, Decimal128(s) for p ≤ 38, Decimal256(s) for p ≤ 76 — and fails
for p > 76. -/
theorem claim3_decimal_precision_narrowing (p s : Nat)
    (hp : p < 2 ^ 64) (hq : s < 2 ^ 64) :
    Type'.from_str (cs "Decimal(" ++ (natToChars p ++ (cs "," ++ (natToChars s ++ cs ")")))) =
      (if p ≤ 9 then .ok (.decimal32 s)
       else if p ≤ 18 then .ok (.decimal64 s)
       else if p ≤ 38 then .ok (.decimal128 s)
       else if p ≤ 76 then .ok (.decimal256 s)
       else .error .badDecimalSpec) := by
  have main : ∀ m : Nat,
      fromStrF (m + 1) (cs "Decimal(" ++ (natToChars p ++ (cs "," ++ (natToChars s ++ cs ")")))) =
        (if p ≤ 9 then .ok (.decimal32 s)
         else if p ≤ 18 then .ok (.decimal64 s)
         else if p ≤ 38 then .ok (.decimal128 s)
         else if p ≤ 76 then .ok (.decimal256 s)
         else .error .badDecimalSpec) := by
    intro m
    obtain ⟨hdp, hdc⟩ := natToChars_plain p
    obtain ⟨hsp, hsc⟩ := natToChars_plain s
    have h3ne : ((natToChars s ++ cs ")") : List Char) ≠ [] :=
      List.append_ne_nil_of_right_ne_nil _ (by decide)
    have h2ne : ((cs "," ++ (natToChars s ++ cs ")")) : List Char) ≠ [] :=
      List.append_ne_nil_of_right_ne_nil _ h3ne
    have hlast : (('(' :: (natToChars p ++ (cs "," ++ (natToChars s ++ cs ")")))) : List Char).getLast?
        = some ')' := by
      rw [show (('(' :: (natToChars p ++ (cs "," ++ (natToChars s ++ cs ")")))) : List Char) =
          ['('] ++ (natToChars p ++ (cs "," ++ (natToChars s ++ cs ")"))) from rfl,
        List.getLast?_append_of_ne_nil _ (List.append_ne_nil_of_right_ne_nil _ h2ne),
        List.getLast?_append_of_ne_nil _ h2ne,
        List.getLast?_append_of_ne_nil _ h3ne,
        List.getLast?_append_of_ne_nil _ (by decide)]
      rfl
    have hdrop : ((natToChars p ++ (cs "," ++ (natToChars s ++ cs ")"))) : List Char).dropLast
        = natToChars p ++ (cs "," ++ natToChars s) := by
      rw [List.dropLast_append_of_ne_nil _ h2ne,
        List.dropLast_append_of_ne_nil _ h3ne,
        List.dropLast_append_of_ne_nil _ (by decide),
        show ((cs ")") : List Char).dropLast = [] from rfl, List.append_nil]
    have hbw : ((natToChars p ++ (cs "," ++ natToChars s)) : List Char).all
        (fun c => !c.isWhitespace) = true := by
      rw [List.all_append, List.all_append, natToChars_noWs p, natToChars_noWs s]
      rfl
    have hbp : parenSum (natToChars p ++ (cs "," ++ natToChars s)) = 0 := by
      rw [parenSum_append, parenSum_append, hdp, hsp]
      decide
    rw [fromStrF_succ,
      show (cs "Decimal(" ++ (natToChars p ++ (cs "," ++ (natToChars s ++ cs ")"))) : List Char) =
        'D' :: (cs "ecimal" ++ ('(' :: (natToChars p ++ (cs "," ++ (natToChars s ++ cs ")"))))) from rfl,
      eatIdentifier_print 'D' (cs "ecimal")
        ('(' :: (natToChars p ++ (cs "," ++ (natToChars s ++ cs ")"))))
        (by decide) (by decide) (Or.inr ⟨'(', _, rfl, by decide⟩)]
    show fromStrCore (fromStrF m) ('D' :: cs "ecimal")
      (trim ('(' :: (natToChars p ++ (cs "," ++ (natToChars s ++ cs ")"))))) = _
    rw [trim_shape _ hlast,
      fromStrCore_shape (fromStrF m) ('D' :: cs "ecimal") _ rfl,
      parseArgs_shape _ _ hlast hdrop hbw hbp,
      show splitTopArgs (natToChars p ++ (cs "," ++ natToChars s)) 0 []
        = splitTopArgs (natToChars p ++ (',' :: natToChars s)) 0 [] from rfl,
      splitTopArgs_sep _ _ (hdc 0) hdp (trim_eq_self_of_noWs (natToChars_noWs p)),
      splitTopArgs_single _ (hsc 0) hsp (natToChars_ne_nil s)
        (trim_eq_self_of_noWs (natToChars_noWs s))]
    show fromStrArgs (fromStrF m) ('D' :: cs "ecimal") [natToChars p, natToChars s] = _
    rw [show fromStrArgs (fromStrF m) ('D' :: cs "ecimal") [natToChars p, natToChars s] =
        (parseUsize (natToChars p) >>= fun p2 =>
          parseUsize (natToChars s) >>= fun s2 =>
          (if p2 ≤ 9 then .ok (.decimal32 s2)
           else if p2 ≤ 18 then .ok (.decimal64 s2)
           else if p2 ≤ 38 then .ok (.decimal128 s2)
           else if p2 ≤ 76 then .ok (.decimal256 s2)
           else .error .badDecimalSpec : Except PError Type')) from rfl,
      parseUsize_natToChars p hp]
    show (parseUsize (natToChars s) >>= fun s2 =>
      (if p ≤ 9 then .ok (.decimal32 s2)
       else if p ≤ 18 then .ok (.decimal64 s2)
       else if p ≤ 38 then .ok (.decimal128 s2)
       else if p ≤ 76 then .ok (.decimal256 s2)
       else .error .badDecimalSpec : Except PError Type')) = _
    rw [parseUsize_natToChars s hq]
    rfl
  exact main (cs "Decimal(" ++ (natToChars p ++ (cs "," ++ (natToChars s ++ cs ")")))).length

/-- Witness for C3 at p = 20, s = 4, together with the concrete spaced
input "Decimal(20, 4)" parsing to Decimal128(4). -/
theorem claim3_decimal_precision_narrowing_witness :
    ((20 : Nat) < 2 ^ 64 ∧ (4 : Nat) < 2 ^ 64 ∧
      Type'.from_str (cs "Decimal(" ++ (natToChars 20 ++ (cs "," ++ (natToChars 4 ++ cs ")")))) =
        .ok (.decimal128 4)) ∧
    Type'.from_str (cs "Decimal(20, 4)") = .ok (.decimal128 4) :=
  ⟨⟨by decide, by decide, by
      rw [claim3_decimal_precision_narrowing 20 4 (by decide) (by decide)]
      rfl⟩,
    rfl⟩

end Klickhouse
